import Mathlib

/-!
Verification of the minibuild marshal48 decoder/encoder and the bundler
Gemfile evaluator.

The definitions below are a shallow embedding of the C sources:
  * `src/marshal48/unmarshal.c` (byte reader, fixnum codec, decode driver,
    encode primitives),
  * `src/marshal48/utils.h` / `src/unnamed/part_010` (ruby context, arenas,
    instance registration),
  * the per-type files `ruby_string.c`, `ruby_symbol.c`, `part_015/016` (Int),
    `part_017` (Array), `part_020` (Hash), `ruby_object.c`,
    `ruby_userdefined.c`, `ruby_usermarshal.c`,
  * `src/unnamed/part_004` (Gemfile parser / bundler context).

Byte streams are modelled as `List Nat` (each element a byte value 0..255 as
produced by the buffered reader).  C `long` values are modelled as `Int`;
conversions to `unsigned int` parameters are made explicit through
`uintCast`.  Fallible C functions returning `bool`/`NULL` are modelled with
`Option`.
-/

namespace Minibuild

/-! ## Byte reader primitives (`ruby_io_nextc`, `ruby_io_nextw`)

`ruby_io_nextc` pops one byte from the buffered stream, failing at EOF.
`ruby_io_nextw` reads `count` bytes in little-endian order and accumulates
`*resultp += (cc << shift)`, starting from 0. -/

def ruby_io_nextc : List Nat → Option (Nat × List Nat)
  | [] => none
  | b :: rest => some (b, rest)

def ruby_io_nextw : Nat → List Nat → Option (Int × List Nat)
  | 0, input => some (0, input)
  | count + 1, input =>
    match ruby_io_nextc input with
    | none => none
    | some (b, rest) =>
      match ruby_io_nextw count rest with
      | none => none
      | some (v, rest') => some ((b : Int) + 256 * v, rest')

/-- The C conversion of a (possibly negative) `long` to an `unsigned int`
function parameter: reduction modulo 2^32. -/
def uintCast (i : Int) : Nat := (i % 4294967296).toNat

/-! ## Fixnum decoding (`ruby_unmarshal_next_fixnum`, unmarshal.c:2085)

The switch on the first byte `cc`:
  * `0` → value 0;
  * `1`, `2`, `3` → read that many little-endian unsigned bytes;
  * `0xff` → read one byte `b`, value `1 - b`;
  * `0xfe`, `0xfd`, `0xfc` → raise NotImplementedError and fail (the code
    after the `return false` is unreachable);
  * default → `cc - 5` when `cc < 0x80`, else `0x80 - cc - 5`.
Note that `case 4` is absent from the switch, so first byte `0x04` is
handled by the default branch. -/

def ruby_unmarshal_next_fixnum (input : List Nat) : Option (Int × List Nat) :=
  match ruby_io_nextc input with
  | none => none
  | some (cc, rest) =>
    if cc = 0 then some (0, rest)
    else if cc = 1 ∨ cc = 2 ∨ cc = 3 then ruby_io_nextw cc rest
    else if cc = 0xff then
      match ruby_io_nextc rest with
      | none => none
      | some (b, rest') => some (1 - (b : Int), rest')
    else if cc = 0xfe ∨ cc = 0xfd ∨ cc = 0xfc then none
    else if cc < 0x80 then some ((cc : Int) - 5, rest)
    else some (0x80 - (cc : Int) - 5, rest)

/-! ## Fixnum encoding (`ruby_marshal_fixnum`, unmarshal.c:2131)

Zero encodes as the single byte 0; positive values below `0x80 - 5` as the
single byte `v + 5`; positive values below 256 as `0x01` plus the byte;
larger positive values as a length byte followed by that many little-endian
bytes (at most 4, otherwise the function fails).  Negative values are not
representable and fail. -/

def leBytes : Nat → List Nat
  | 0 => []
  | n + 1 => ((n + 1) % 256) :: leBytes ((n + 1) / 256)
decreasing_by exact Nat.div_lt_self (Nat.succ_pos n) (by omega)

def ruby_marshal_fixnum (fixnum : Int) : Option (List Nat) :=
  if fixnum = 0 then some [0]
  else if 0 ≤ fixnum then
    if fixnum < 0x80 - 5 then some [(fixnum + 5).toNat]
    else if fixnum < 256 then some [1, fixnum.toNat]
    else
      let bytes := leBytes fixnum.toNat
      if bytes.length > 4 then none
      else some (bytes.length :: bytes)
  else none

/-! ## Encoder primitives (`unmarshal.c:2473-2606`)

The marshal context (`ruby_marshal_t`) carries `next_obj_id` and
`next_sym_id`, both starting at 0 in `ruby_unmarshal_new`.  Each instance
carries a `marshal_id` initialised to `-1` in `__ruby_instance_new`
(utils.h:210).  The functions below thread these ids explicitly and return
the emitted bytes. -/

def ruby_marshal_true : List Nat := [84]

def ruby_marshal_symbol_reference (id : Int) : Option (List Nat) :=
  (ruby_marshal_fixnum id).map (fun b => 59 :: b)

def ruby_marshal_object_reference (id : Int) : Option (List Nat) :=
  (ruby_marshal_fixnum id).map (fun b => 64 :: b)

/-- `__ruby_marshal_maybe_object_reference` (unmarshal.c:2514).  Takes the
instance's current `marshal_id` and the context's `next_obj_id`; returns
the seen-before flag, the updated `marshal_id`, the updated `next_obj_id`
and the emitted bytes.  Note the test is `*obj_id_ret > 0`, not `>= 0`. -/
def __ruby_marshal_maybe_object_reference (obj_id next_obj_id : Int) :
    Option (Bool × Int × Int × List Nat) :=
  if obj_id > 0 then
    (ruby_marshal_object_reference obj_id).map (fun b => (true, obj_id, next_obj_id, b))
  else some (false, next_obj_id, next_obj_id + 1, [])

/-- `ruby_marshal_bytes`: length-prefixed byte sequence. -/
def ruby_marshal_bytes (bytes : List Nat) : Option (List Nat) :=
  (ruby_marshal_fixnum bytes.length).map (fun pre => pre ++ bytes)

/-- `ruby_marshal_symbol` (unmarshal.c:2532).  Takes the symbol's current
`sym_id` and the context's `next_sym_id` (the test here is `>= 0`);
returns the emitted bytes, the updated `sym_id` and `next_sym_id`. -/
def ruby_marshal_symbol (name : List Nat) (sym_id next_sym_id : Int) :
    Option (List Nat × Int × Int) :=
  if sym_id ≥ 0 then
    (ruby_marshal_symbol_reference sym_id).map (fun b => (b, sym_id, next_sym_id))
  else
    (ruby_marshal_bytes name).map (fun b => (58 :: b, next_sym_id, next_sym_id + 1))

/-- `ruby_marshal_string` (unmarshal.c:2544).  `e_sym_id` is the
function-local `static int e_sym_id = -1`, which in C persists for the
lifetime of the process, across marshal contexts; it is therefore threaded
as an explicit extra piece of process state.  Returns the emitted bytes
and the updated `obj_id`, `e_sym_id`, `next_obj_id`, `next_sym_id`. -/
def ruby_marshal_string (s : List Nat) (obj_id e_sym_id next_obj_id next_sym_id : Int) :
    Option (List Nat × Int × Int × Int × Int) :=
  match __ruby_marshal_maybe_object_reference obj_id next_obj_id with
  | none => none
  | some (seen, obj_id', next_obj_id', refBytes) =>
    if seen then some (refBytes, obj_id', e_sym_id, next_obj_id', next_sym_id)
    else if s = [] ∨ s.head? = some 0 then
      some ([34, 0], obj_id', e_sym_id, next_obj_id', next_sym_id)
    else
      match ruby_marshal_bytes s with
      | none => none
      | some sBytes =>
        match ruby_marshal_fixnum 1 with
        | none => none
        | some oneBytes =>
          match ruby_marshal_symbol [69] e_sym_id next_sym_id with
          | none => none
          | some (eBytes, e_sym_id', next_sym_id') =>
            some ([73, 34] ++ sBytes ++ oneBytes ++ eBytes ++ ruby_marshal_true,
                  obj_id', e_sym_id', next_obj_id', next_sym_id')

/-- `marshal48_marshal_io` specialised to a root `ruby_String` instance
fresh from `__ruby_instance_new` (so its `marshal_id` is `-1`), in a fresh
marshal context (`next_obj_id = next_sym_id = 0`): write the signature,
then marshal the string.  Only the process-static `e_sym_id`
survives from one context to the next; it is the explicit parameter and
the second component of the result. -/
def marshal48_marshal_string_document (e_sym_id : Int) (s : List Nat) :
    Option (List Nat × Int) :=
  match ruby_marshal_string s (-1) e_sym_id 0 0 with
  | none => none
  | some (bytes, _, e_sym_id', _, _) => some ([4, 8] ++ bytes, e_sym_id')

/-! ## The value arena and reference tables

`struct ruby_context` (utils.h:61) holds three `ruby_array_t` arenas:
`symbols`, `objects` and `emphemerals` (sic).  Instances are modelled as a
heap (`List RObj`) indexed by creation order; the arenas store heap
indices.  `__ruby_instance_new` (utils.h:199) allocates the instance and
immediately registers it in the arena selected by the type's registration
kind. -/

inductive RVal where
  | rtrue
  | rfalse
  | rnil
  | ref (id : Nat)
deriving DecidableEq, Repr

inductive RObj where
  | int (value : Int)
  | sym (name : List Nat)
  | str (value : List Nat)
  | arr (items : List RVal)
  | hash (pairs : List (RVal × RVal))
  | genericObject (classname : List Nat) (vars : List (RVal × RVal))
  | userDefined (classname : List Nat) (data : List Nat) (vars : List (RVal × RVal))
  | userMarshal (classname : List Nat) (data : Option RVal) (vars : List (RVal × RVal))
deriving DecidableEq, Repr

inductive RegKind where
  | ephemeral
  | symbol
  | object
deriving DecidableEq, Repr

/-- Registration kind of each type (`.registration` in the `ruby_type_t`
tables; `ruby_Int_type` has none, which is `RUBY_REG_EPHEMERAL`;
`UserDefined`/`UserMarshal` inherit `RUBY_REG_OBJECT` from
`ruby_GenericObject_type` through the base-type chain). -/
def RObj.registration : RObj → RegKind
  | .int _ => .ephemeral
  | .sym _ => .symbol
  | _ => .object

structure RubyContext where
  heap : List RObj
  symbols : List Nat
  objects : List Nat
  emphemerals : List Nat
deriving DecidableEq, Repr

def RubyContext.empty : RubyContext := ⟨[], [], [], []⟩

/-- `__ruby_instance_new` (utils.h:199): allocate the instance and register
it; the arena index assigned is the arena's count before the append. -/
def __ruby_instance_new (ctx : RubyContext) (obj : RObj) : Nat × RubyContext :=
  let id := ctx.heap.length
  let ctx' := { ctx with heap := ctx.heap ++ [obj] }
  match obj.registration with
  | .ephemeral => (id, { ctx' with emphemerals := ctx'.emphemerals ++ [id] })
  | .symbol => (id, { ctx' with symbols := ctx'.symbols ++ [id] })
  | .object => (id, { ctx' with objects := ctx'.objects ++ [id] })

/-- `ruby_array_get` (ruby_utils.c:77): out-of-range indices yield NULL. -/
def ruby_array_get (array : List Nat) (index : Nat) : Option Nat :=
  if index ≥ array.length then none else array.get? index

def ruby_context_get_symbol (ctx : RubyContext) (ref : Nat) : Option Nat :=
  ruby_array_get ctx.symbols ref

def ruby_context_get_object (ctx : RubyContext) (ref : Nat) : Option Nat :=
  ruby_array_get ctx.objects ref

def heapGet (ctx : RubyContext) (id : Nat) : Option RObj := ctx.heap.get? id

def heapSet (ctx : RubyContext) (id : Nat) (obj : RObj) : RubyContext :=
  { ctx with heap := ctx.heap.set id obj }

/-- C strings are NUL-terminated: `strdup` of decoded bytes keeps only the
prefix before the first zero byte. -/
def cstring (bytes : List Nat) : List Nat := bytes.takeWhile (fun b => b ≠ 0)

def ruby_Array_append (ctx : RubyContext) (id : Nat) (item : RVal) : Option RubyContext :=
  match heapGet ctx id with
  | some (.arr items) => some (heapSet ctx id (.arr (items ++ [item])))
  | _ => none

def ruby_Hash_add (ctx : RubyContext) (id : Nat) (key value : RVal) : Option RubyContext :=
  match heapGet ctx id with
  | some (.hash pairs) => some (heapSet ctx id (.hash (pairs ++ [(key, value)])))
  | _ => none

def ruby_Symbol_get_name (ctx : RubyContext) (v : RVal) : Option (List Nat) :=
  match v with
  | .ref id =>
    match heapGet ctx id with
    | some (.sym name) => some name
    | _ => none
  | _ => none

/-- `ruby_instance_as_string` (utils.h:327): accepts String and Symbol
instances only. -/
def ruby_instance_as_string (ctx : RubyContext) (v : RVal) : Option (List Nat) :=
  match v with
  | .ref id =>
    match heapGet ctx id with
    | some (.str value) => some value
    | some (.sym name) => some name
    | _ => none
  | _ => none

/-- `ruby_Bool_check`: only the two Bool singletons qualify. -/
def ruby_Bool_check : RVal → Bool
  | .rtrue => true
  | .rfalse => true
  | _ => false

/-- `ruby_String_set_var` (ruby_reader.c:352): the key must be a Symbol;
only the name `E` is supported and its value must be a Bool (both branches
then do nothing). -/
def ruby_String_set_var (ctx : RubyContext) (key value : RVal) : Option RubyContext :=
  match ruby_Symbol_get_name ctx key with
  | none => none
  | some name =>
    if name = [69] then
      if ruby_Bool_check value then some ctx else none
    else none

/-- `ruby_GenericObject_set_var` (ruby_object.c:72): unconditionally append
the pair to the instance's var dict (the `@` is not stripped here). -/
def ruby_GenericObject_set_var (ctx : RubyContext) (id : Nat) (key value : RVal) :
    Option RubyContext :=
  match heapGet ctx id with
  | some (.genericObject cn vars) =>
    some (heapSet ctx id (.genericObject cn (vars ++ [(key, value)])))
  | some (.userDefined cn data vars) =>
    some (heapSet ctx id (.userDefined cn data (vars ++ [(key, value)])))
  | some (.userMarshal cn data vars) =>
    some (heapSet ctx id (.userMarshal cn data (vars ++ [(key, value)])))
  | _ => none

/-- `ruby_instance_set_var` (extension.h:82): walk the type chain for a
`set_var` operation; String has its own, the GenericObject family shares
one, every other kind has none and the call fails. -/
def ruby_instance_set_var (ctx : RubyContext) (target key value : RVal) : Option RubyContext :=
  match target with
  | .ref id =>
    match heapGet ctx id with
    | some (.str _) => ruby_String_set_var ctx key value
    | some (.genericObject _ _) => ruby_GenericObject_set_var ctx id key value
    | some (.userDefined _ _ _) => ruby_GenericObject_set_var ctx id key value
    | some (.userMarshal _ _ _) => ruby_GenericObject_set_var ctx id key value
    | _ => none
  | _ => none

def ruby_UserDefined_set_data (ctx : RubyContext) (id : Nat) (data : List Nat) :
    Option RubyContext :=
  match heapGet ctx id with
  | some (.userDefined cn _ vars) => some (heapSet ctx id (.userDefined cn data vars))
  | _ => none

def ruby_UserMarshal_set_data (ctx : RubyContext) (id : Nat) (data : RVal) :
    Option RubyContext :=
  match heapGet ctx id with
  | some (.userMarshal cn _ vars) => some (heapSet ctx id (.userMarshal cn (some data) vars))
  | _ => none

/-! ## Byte-sequence and reference decoding -/

/-- `ruby_unmarshal_next_byteseq` (unmarshal.c:2173): a fixnum count (the
`long` is passed to an `unsigned int` parameter of
`ruby_io_next_byteseq`) followed by that many raw bytes. -/
def ruby_unmarshal_next_byteseq (input : List Nat) : Option (List Nat × List Nat) :=
  match ruby_unmarshal_next_fixnum input with
  | none => none
  | some (count, rest) =>
    let n := uintCast count
    if n ≤ rest.length then some (rest.take n, rest.drop n) else none

/-- `ruby_unmarshal_next_string` (unmarshal.c:2186): byteseq, then
NUL-terminate; the subsequent `strdup` keeps the prefix before the first
zero byte. -/
def ruby_unmarshal_next_string (input : List Nat) : Option (List Nat × List Nat) :=
  match ruby_unmarshal_next_byteseq input with
  | none => none
  | some (bytes, rest) => some (cstring bytes, rest)

/-- `ruby_SymbolReference_unmarshal` (unmarshal.c:2252): decode a fixnum
and look it up in the symbol table (the `long` is passed to the
`unsigned int` parameter of `ruby_context_get_symbol`); NULL means
failure. -/
def ruby_SymbolReference_unmarshal (ctx : RubyContext) (input : List Nat) :
    Option (RVal × RubyContext × List Nat) :=
  match ruby_unmarshal_next_fixnum input with
  | none => none
  | some (ref, rest) =>
    match ruby_context_get_symbol ctx (uintCast ref) with
    | none => none
    | some id => some (.ref id, ctx, rest)

/-- `ruby_ObjectReference_unmarshal` (unmarshal.c:2276). -/
def ruby_ObjectReference_unmarshal (ctx : RubyContext) (input : List Nat) :
    Option (RVal × RubyContext × List Nat) :=
  match ruby_unmarshal_next_fixnum input with
  | none => none
  | some (ref, rest) =>
    match ruby_context_get_object ctx (uintCast ref) with
    | none => none
    | some id => some (.ref id, ctx, rest)

/-! ## The recursive decode driver (`__ruby_unmarshal_next_instance`,
unmarshal.c:2384)

Dispatch on the tag byte: `T F 0` are the shared singletons; `i : " [ { o
u U` go through the type table's `unmarshal` functions; `; @ I` go through
the processors.  Recursion depth is bounded by an explicit fuel (the C
code recurses on the call stack). -/

mutual

def ruby_unmarshal_next_instance : Nat → RubyContext → List Nat →
    Option (RVal × RubyContext × List Nat)
  | 0, _, _ => none
  | fuel + 1, ctx, input =>
    match ruby_io_nextc input with
    | none => none
    | some (cc, rest) =>
      if cc = 84 then some (.rtrue, ctx, rest)
      else if cc = 70 then some (.rfalse, ctx, rest)
      else if cc = 48 then some (.rnil, ctx, rest)
      else if cc = 105 then
        match ruby_unmarshal_next_fixnum rest with
        | none => none
        | some (value, rest') =>
          let (id, ctx') := __ruby_instance_new ctx (.int value)
          some (.ref id, ctx', rest')
      else if cc = 58 then
        match ruby_unmarshal_next_string rest with
        | none => none
        | some (name, rest') =>
          let (id, ctx') := __ruby_instance_new ctx (.sym name)
          some (.ref id, ctx', rest')
      else if cc = 59 then ruby_SymbolReference_unmarshal ctx rest
      else if cc = 64 then ruby_ObjectReference_unmarshal ctx rest
      else if cc = 34 then
        match ruby_unmarshal_next_string rest with
        | none => none
        | some (value, rest') =>
          let (id, ctx') := __ruby_instance_new ctx (.str value)
          some (.ref id, ctx', rest')
      else if cc = 91 then
        match ruby_unmarshal_next_fixnum rest with
        | none => none
        | some (count, rest') =>
          let (id, ctx') := __ruby_instance_new ctx (.arr [])
          match ruby_Array_unmarshal_items fuel count.toNat id ctx' rest' with
          | none => none
          | some (ctx'', rest'') => some (.ref id, ctx'', rest'')
      else if cc = 123 then
        match ruby_unmarshal_next_fixnum rest with
        | none => none
        | some (count, rest') =>
          let (id, ctx') := __ruby_instance_new ctx (.hash [])
          match ruby_Hash_unmarshal_pairs fuel count.toNat id ctx' rest' with
          | none => none
          | some (ctx'', rest'') => some (.ref id, ctx'', rest'')
      else if cc = 111 then
        match ruby_unmarshal_object_instance fuel ctx rest with
        | none => none
        | some (classname, ctx1, rest1) =>
          let (id, ctx2) := __ruby_instance_new ctx1 (.genericObject classname [])
          match ruby_unmarshal_object_instance_vars fuel (.ref id) ctx2 rest1 with
          | none => none
          | some (ctx3, rest3) => some (.ref id, ctx3, rest3)
      else if cc = 117 then
        match ruby_unmarshal_object_instance fuel ctx rest with
        | none => none
        | some (classname, ctx1, rest1) =>
          let (id, ctx2) := __ruby_instance_new ctx1 (.userDefined classname [] [])
          match ruby_unmarshal_next_byteseq rest1 with
          | none => none
          | some (data, rest2) =>
            match ruby_UserDefined_set_data ctx2 id data with
            | none => none
            | some ctx3 => some (.ref id, ctx3, rest2)
      else if cc = 85 then
        match ruby_unmarshal_object_instance fuel ctx rest with
        | none => none
        | some (classname, ctx1, rest1) =>
          let (id, ctx2) := __ruby_instance_new ctx1 (.userMarshal classname none [])
          match ruby_unmarshal_next_instance fuel ctx2 rest1 with
          | none => none
          | some (data, ctx3, rest2) =>
            match ruby_UserMarshal_set_data ctx3 id data with
            | none => none
            | some ctx4 => some (.ref id, ctx4, rest2)
      else if cc = 73 then
        match ruby_unmarshal_next_instance fuel ctx rest with
        | none => none
        | some (inner, ctx1, rest1) =>
          match ruby_unmarshal_object_instance_vars fuel inner ctx1 rest1 with
          | none => none
          | some (ctx2, rest2) => some (inner, ctx2, rest2)
      else none

/-- `ruby_unmarshal_object_instance` (unmarshal.c:2300): decode the
class-name value and convert it with `ruby_instance_as_string`. -/
def ruby_unmarshal_object_instance : Nat → RubyContext → List Nat →
    Option (List Nat × RubyContext × List Nat)
  | fuel, ctx, input =>
    match ruby_unmarshal_next_instance fuel ctx input with
    | none => none
    | some (nameInstance, ctx', rest) =>
      match ruby_instance_as_string ctx' nameInstance with
      | none => none
      | some classname => some (classname, ctx', rest)

/-- `ruby_unmarshal_object_instance_vars` (unmarshal.c:2323): a fixnum
count followed by that many key/value pairs installed with
`ruby_instance_set_var`. -/
def ruby_unmarshal_object_instance_vars : Nat → RVal → RubyContext → List Nat →
    Option (RubyContext × List Nat)
  | fuel, target, ctx, input =>
    match ruby_unmarshal_next_fixnum input with
    | none => none
    | some (count, rest) => ruby_unmarshal_ivars fuel count.toNat target ctx rest

def ruby_unmarshal_ivars : Nat → Nat → RVal → RubyContext → List Nat →
    Option (RubyContext × List Nat)
  | _, 0, _, ctx, input => some (ctx, input)
  | fuel, n + 1, target, ctx, input =>
    match ruby_unmarshal_next_instance fuel ctx input with
    | none => none
    | some (key, ctx1, input1) =>
      match ruby_unmarshal_next_instance fuel ctx1 input1 with
      | none => none
      | some (value, ctx2, input2) =>
        match ruby_instance_set_var ctx2 target key value with
        | none => none
        | some ctx3 => ruby_unmarshal_ivars fuel n target ctx3 input2

/-- The element loop of `ruby_Array_unmarshal` (part_017:63). -/
def ruby_Array_unmarshal_items : Nat → Nat → Nat → RubyContext → List Nat →
    Option (RubyContext × List Nat)
  | _, 0, _, ctx, input => some (ctx, input)
  | fuel, n + 1, id, ctx, input =>
    match ruby_unmarshal_next_instance fuel ctx input with
    | none => none
    | some (item, ctx1, input1) =>
      match ruby_Array_append ctx1 id item with
      | none => none
      | some ctx2 => ruby_Array_unmarshal_items fuel n id ctx2 input1

/-- The pair loop of `ruby_Hash_unmarshal` (part_020:43). -/
def ruby_Hash_unmarshal_pairs : Nat → Nat → Nat → RubyContext → List Nat →
    Option (RubyContext × List Nat)
  | _, 0, _, ctx, input => some (ctx, input)
  | fuel, n + 1, id, ctx, input =>
    match ruby_unmarshal_next_instance fuel ctx input with
    | none => none
    | some (key, ctx1, input1) =>
      match ruby_unmarshal_next_instance fuel ctx1 input1 with
      | none => none
      | some (value, ctx2, input2) =>
        match ruby_Hash_add ctx2 id key value with
        | none => none
        | some ctx3 => ruby_Hash_unmarshal_pairs fuel n id ctx3 input2

end

/-- `marshal48_check_signature` (unmarshal.c:2641): the two bytes
`0x04 0x08`. -/
def marshal48_check_signature (input : List Nat) : Option (List Nat) :=
  match input with
  | 4 :: 8 :: rest => some rest
  | _ => none

/-- `marshal48_unmarshal_io` (unmarshal.c:2670): fresh context, check the
signature, decode one instance. -/
def marshal48_unmarshal_io (fuel : Nat) (input : List Nat) :
    Option (RVal × RubyContext × List Nat) :=
  match marshal48_check_signature input with
  | none => none
  | some rest => ruby_unmarshal_next_instance fuel RubyContext.empty rest

/-! ## Arena invariants used by the registration-order theorems -/

/-- Every arena entry points at an allocated heap cell. -/
def ctxWF (ctx : RubyContext) : Prop :=
  (∀ j ∈ ctx.objects, j < ctx.heap.length) ∧ (∀ j ∈ ctx.symbols, j < ctx.heap.length)

/-- During decoding the arenas only grow at the tail, and every entry
appended cites an instance allocated no earlier than the starting heap
bound. -/
def ctxExtends (a b : RubyContext) : Prop :=
  a.heap.length ≤ b.heap.length ∧
  (∃ d, b.objects = a.objects ++ d ∧ ∀ j ∈ d, a.heap.length ≤ j) ∧
  (∃ d, b.symbols = a.symbols ++ d ∧ ∀ j ∈ d, a.heap.length ≤ j)

/-- The decode postcondition at a given fuel: decoding from a
well-formed context extends the arenas, preserves well-formedness, and
returns a reference into the final heap (when it returns a reference at
all). -/
def NextInstancePost (fuel : Nat) : Prop :=
  ∀ ctx input v ctx' rest, ctxWF ctx →
    ruby_unmarshal_next_instance fuel ctx input = some (v, ctx', rest) →
    ctxExtends ctx ctx' ∧ ctxWF ctx' ∧ (∀ id, v = RVal.ref id → id < ctx'.heap.length)

/-! ## The bundler Gemfile evaluator (`src/unnamed/part_004`)

The statement layer is modelled over the lexer's token stream: the
functions below consume `GToken`s exactly as the C functions consume
`gemfile_parser_next_token` results.  `ignore_eol` suppresses EOL tokens
while set, as the C lexer does inside bracketed expressions.  End of file
is the `eof` token (returned without consuming once the stream is
exhausted).  The `percent` token carries the remaining raw characters of
its line, because the `%`-literal parser bypasses the tokenizer and reads
characters directly (`gemfile_parser_next_character`). -/

inductive GToken where
  | ident (value : String)
  | sym (value : String)
  | str (value : String)
  | comma
  | operator (value : String)
  | lblocky
  | rblocky
  | lbracket
  | rbracket
  | colon
  | percent (raw : List Char)
  | eol
  | eof
deriving DecidableEq, Repr

structure bundler_context where
  ruby_version : String
  platforms : List String
  with_groups : List String
  without_groups : List String
deriving DecidableEq, Repr

def string_array_contains (array : List String) (value : String) : Bool :=
  array.contains value

/-- `bundler_context_new` (part_004:1367): `default` is always placed in
the enabled groups and the platform list is derived from the ruby
version (`ruby`, `mri`, `ruby_XY`, `mri_XY`); the short version suffixes
are abstracted by taking them as given. -/
def bundler_context_new (ruby_version : String) (short_version : String) : bundler_context :=
  { ruby_version := ruby_version
    platforms := ["ruby", "mri", "ruby_" ++ short_version, "mri_" ++ short_version]
    with_groups := ["default"]
    without_groups := [] }

def bundler_context_with_group (ctx : bundler_context) (name : String) : bundler_context :=
  { ctx with with_groups := ctx.with_groups ++ [name] }

def bundler_context_without_group (ctx : bundler_context) (name : String) : bundler_context :=
  { ctx with without_groups := ctx.without_groups ++ [name] }

/-- `bundler_context_match_platform` (part_004:1426). -/
def bundler_context_match_platform (ctx : bundler_context) (names : List String) : Bool :=
  if names.isEmpty then true
  else names.any (fun n => string_array_contains ctx.platforms n)

/-- `bundler_context_match_group` (part_004:1443). -/
def bundler_context_match_group (ctx : bundler_context) (names : List String) : Bool :=
  if names.isEmpty then string_array_contains ctx.with_groups "default"
  else
    let withFlag := names.any (fun g => string_array_contains ctx.with_groups g)
    let withoutFlag := names.any (fun g => string_array_contains ctx.without_groups g)
    if withoutFlag then false else withFlag

inductive bundler_value where
  | bool (b : Bool)
  | string (s : String)
  | symbol (s : String)
  | array (items : List bundler_value)

structure bundler_gem where
  name : Option String
  dependency : List String
  ivars : List (String × bundler_value)
  ignore : Bool

structure bundler_gemfile where
  source : Option String
  gems : List bundler_gem

def bundler_gemfile.empty : bundler_gemfile := ⟨none, []⟩

mutual

/-- `bundler_value_to_string_array` (part_004:573): strings and symbols
append one entry; arrays recurse, stopping at (but keeping the partial
output of) the first failing element; other kinds fail without
appending. -/
def bundler_value_to_string_array : bundler_value → List String × Bool
  | .string s => ([s], true)
  | .symbol s => ([s], true)
  | .bool _ => ([], false)
  | .array items => bundler_value_array_to_strings items

def bundler_value_array_to_strings : List bundler_value → List String × Bool
  | [] => ([], true)
  | v :: rest =>
    let (s, ok) := bundler_value_to_string_array v
    if ok then
      let (s', ok') := bundler_value_array_to_strings rest
      (s ++ s', ok')
    else (s, false)

end

/-- `bundler_gem_get_ivar` (part_004:558): first ivar with that name. -/
def bundler_gem_get_ivar (gem : bundler_gem) (name : String) :
    Option (String × bundler_value) :=
  gem.ivars.find? (fun iv => iv.1 == name)

/-- `bundler_gem_get_strings` (part_004:604): a missing ivar appends
nothing (the boolean result is ignored by the caller). -/
def bundler_gem_get_strings (gem : bundler_gem) (name : String) : List String :=
  match bundler_gem_get_ivar gem name with
  | none => []
  | some iv => (bundler_value_to_string_array iv.2).1

/-- `bundler_gem_add_dependency` (part_004:539). -/
def bundler_gem_add_dependency (gem : bundler_gem) (s : String) : bundler_gem :=
  match gem.name with
  | none => { gem with name := some s }
  | some _ => { gem with dependency := gem.dependency ++ [s] }

/-- `bundler_gem_apply_context` (part_004:616): set `ignore` when the
gem's platform list fails to match, then again when its group list
(defaulting to `[default]`) fails the group filter. -/
def bundler_gem_apply_context (gem : bundler_gem) (ctx : bundler_context) : bundler_gem :=
  let platformStrings :=
    bundler_gem_get_strings gem "platform" ++ bundler_gem_get_strings gem "platforms"
  let gem :=
    if ¬ bundler_context_match_platform ctx platformStrings then { gem with ignore := true }
    else gem
  let groupStrings :=
    bundler_gem_get_strings gem "group" ++ bundler_gem_get_strings gem "groups"
  let groupStrings := if groupStrings.isEmpty then ["default"] else groupStrings
  if ¬ bundler_context_match_group ctx groupStrings then { gem with ignore := true }
  else gem

structure gemfile_parser_state where
  tokens : List GToken
  ignore_eol : Nat
  execute : Bool
  bundler_ctx : Option bundler_context
deriving DecidableEq

def gemfile_parser_next_token_aux : List GToken → Nat → GToken × List GToken
  | [], _ => (.eof, [])
  | t :: rest, ie =>
    if t = GToken.eol ∧ ie > 0 then gemfile_parser_next_token_aux rest ie
    else (t, rest)

def gemfile_parser_next_token (st : gemfile_parser_state) : GToken × gemfile_parser_state :=
  let (t, rest) := gemfile_parser_next_token_aux st.tokens st.ignore_eol
  (t, { st with tokens := rest })

def __bundler_gemfile_token_is_eol : GToken → Bool
  | .eol => true
  | .eof => true
  | _ => false

def gemfile_parser_expect_string (st : gemfile_parser_state) :
    Option (String × gemfile_parser_state) :=
  match gemfile_parser_next_token st with
  | (.str s, st') => some (s, st')
  | _ => none

def gemfile_parser_expect_symbol (st : gemfile_parser_state) :
    Option (String × gemfile_parser_state) :=
  match gemfile_parser_next_token st with
  | (.sym s, st') => some (s, st')
  | _ => none

def gemfile_parser_expect_eol (st : gemfile_parser_state) : Option gemfile_parser_state :=
  let (token, st') := gemfile_parser_next_token st
  if __bundler_gemfile_token_is_eol token then some st' else none

/-- C `isspace` over the characters `gemfile_parser_next_character`
delivers from the current line. -/
def gemfile_parser_char_isspace (c : Char) : Bool :=
  c == ' ' || c == '\t' || c == '\n' || c == '\x0b' || c == '\x0c' || c == '\r'

/-- The character scan loop of `gemfile_parser_process_literal_percent_w`
(part_004:1087): at the closing delimiter or whitespace the accumulated
word (if non-empty) is appended as a string value; the closing delimiter
ends the literal; whitespace is skipped; any other character is appended
to the word unless that would overflow the 256-byte word buffer; running
out of characters (`next_character` returning `NUL` at end of line) is
`gemfile_parser_err_unexpected_eol`, a failure.  Returns the values and
the characters left after the closing delimiter. -/
def gemfile_parser_percent_w_loop (right : Char) (items : List bundler_value)
    (word : List Char) : List Char → Option (List bundler_value × List Char)
  | [] => none
  | cc :: rest =>
    let (items, word) :=
      if (cc == right || gemfile_parser_char_isspace cc) && !word.isEmpty then
        (items ++ [bundler_value.string (String.mk word)], ([] : List Char))
      else (items, word)
    if cc == right then some (items, rest)
    else if gemfile_parser_char_isspace cc then
      gemfile_parser_percent_w_loop right items word rest
    else if word.length + 2 ≥ 256 then none
    else gemfile_parser_percent_w_loop right items (word ++ [cc]) rest

/-- `gemfile_parser_process_literal_percent_w` (part_004:1063): the first
character is the opening delimiter (`NUL`, i.e. no character left, is a
failure); `[`/`(`/`\x7b` pair with their closing counterparts, any other
character closes with itself. -/
def gemfile_parser_process_literal_percent_w :
    List Char → Option (List bundler_value × List Char)
  | [] => none
  | left :: rest =>
    let right :=
      if left == '[' then ']'
      else if left == '(' then ')'
      else if left == '\x7b' then '\x7d'
      else left
    gemfile_parser_percent_w_loop right [] [] rest

mutual

/-- `gemfile_parser_process_expression` (part_004:1120) together with the
bracketed-array item loop.  The `%`-literal branch switches to reading
raw characters from the current line (`gemfile_parser_next_character`);
the `percent` token therefore carries the line's remaining characters,
and only the literal kind `w` is supported.  Characters remaining after
the literal's closing delimiter would be re-tokenised by the C lexer;
the token-stream embedding cannot represent that, so such inputs are not
modelled (rejected) here.  All the token kinds the C code sends to
`gemfile_parser_err_unexpected` fail. -/
def gemfile_parser_process_expression : Nat → gemfile_parser_state →
    Option (bundler_value × gemfile_parser_state)
  | 0, _ => none
  | fuel + 1, st =>
    let (token, st) := gemfile_parser_next_token st
    match token with
    | .ident s =>
      if s = "false" then some (.bool false, st)
      else if s = "true" then some (.bool true, st)
      else if s = "RUBY_VERSION" then
        match st.bundler_ctx with
        | none => none
        | some ctx => some (.string ctx.ruby_version, st)
      else none
    | .str s => some (.string s, st)
    | .sym s => some (.symbol s, st)
    | .lblocky =>
      let st := { st with ignore_eol := st.ignore_eol + 1 }
      match gemfile_parser_array_items fuel st with
      | none => none
      | some (items, token, st) =>
        let st := { st with ignore_eol := st.ignore_eol - 1 }
        if token = GToken.rblocky then some (.array items, st) else none
    | .percent raw =>
      match raw with
      | [] => none
      | c :: rest =>
        if c == 'w' then
          match gemfile_parser_process_literal_percent_w rest with
          | none => none
          | some (items, leftover) =>
            if leftover.isEmpty then some (.array items, st) else none
        else none
    | _ => none

def gemfile_parser_array_items : Nat → gemfile_parser_state →
    Option (List bundler_value × GToken × gemfile_parser_state)
  | 0, _ => none
  | fuel + 1, st =>
    match gemfile_parser_process_expression fuel st with
    | none => none
    | some (item, st) =>
      let (token, st) := gemfile_parser_next_token st
      if token = GToken.comma then
        match gemfile_parser_array_items fuel st with
        | none => none
        | some (items, token', st) => some (item :: items, token', st)
      else some ([item], token, st)

end

/-- `gemfile_parser_process_source` (part_004:761): the source is set only
while `execute` holds; the statement must end the line. -/
def gemfile_parser_process_source (gemf : bundler_gemfile) (st : gemfile_parser_state) :
    Option (bundler_gemfile × gemfile_parser_state) :=
  match gemfile_parser_expect_string st with
  | none => none
  | some (string, st) =>
    let gemf := if st.execute then { gemf with source := some string } else gemf
    match gemfile_parser_expect_eol st with
    | none => none
    | some st => some (gemf, st)

/-- `gemfile_parser_process_ruby` (part_004:777): the expression is parsed
and discarded. -/
def gemfile_parser_process_ruby (fuel : Nat) (gemf : bundler_gemfile)
    (st : gemfile_parser_state) : Option (bundler_gemfile × gemfile_parser_state) :=
  match gemfile_parser_process_expression fuel st with
  | none => none
  | some (_, st) =>
    match gemfile_parser_expect_eol st with
    | none => none
    | some st => some (gemf, st)

/-- `gemfile_parser_process_gemspec` (part_004:794):
`bundler_gemfile_add_gemspec` is a no-op. -/
def gemfile_parser_process_gemspec (gemf : bundler_gemfile) (st : gemfile_parser_state) :
    Option (bundler_gemfile × gemfile_parser_state) :=
  match gemfile_parser_expect_eol st with
  | none => none
  | some st => some (gemf, st)

mutual

/-- The argument loop of `gemfile_parser_process_gem` (part_004:1190):
strings become the name then version specs; `:KEY => VAL` and `KEY: VAL`
become ivars; iterated while a comma follows, then the line must end. -/
def gemfile_parser_gem_args : Nat → bundler_gem → gemfile_parser_state →
    Option (bundler_gem × gemfile_parser_state)
  | 0, _, _ => none
  | fuel + 1, gem, st =>
    let (token, st) := gemfile_parser_next_token st
    match token with
    | .str s => gemfile_parser_gem_args_next fuel (bundler_gem_add_dependency gem s) st
    | .sym s =>
      let (t2, st) := gemfile_parser_next_token st
      match t2 with
      | .operator op =>
        if op = "=>" then
          match gemfile_parser_process_expression fuel st with
          | none => none
          | some (value, st) =>
            gemfile_parser_gem_args_next fuel { gem with ivars := gem.ivars ++ [(s, value)] } st
        else none
      | _ => none
    | .ident s =>
      let (t2, st) := gemfile_parser_next_token st
      if t2 = GToken.colon then
        match gemfile_parser_process_expression fuel st with
        | none => none
        | some (value, st) =>
          gemfile_parser_gem_args_next fuel { gem with ivars := gem.ivars ++ [(s, value)] } st
      else none
    | _ => none

def gemfile_parser_gem_args_next : Nat → bundler_gem → gemfile_parser_state →
    Option (bundler_gem × gemfile_parser_state)
  | fuel, gem, st =>
    let (token, st') := gemfile_parser_next_token st
    if token = GToken.comma then gemfile_parser_gem_args fuel gem st'
    else if __bundler_gemfile_token_is_eol token then some (gem, st')
    else none

end

/-- `gemfile_parser_process_gem` (part_004:1179): the gem entry is created
(appended) unconditionally; its `ignore` flag starts as the negation of
the execute flag; after the arguments, `bundler_gem_apply_context` runs
when a bundler context is present. -/
def gemfile_parser_process_gem (fuel : Nat) (gemf : bundler_gemfile)
    (st : gemfile_parser_state) : Option (bundler_gemfile × gemfile_parser_state) :=
  let gem : bundler_gem := { name := none, dependency := [], ivars := [], ignore := !st.execute }
  match gemfile_parser_gem_args fuel gem st with
  | none => none
  | some (gem, st) =>
    let gem :=
      match st.bundler_ctx with
      | some ctx => bundler_gem_apply_context gem ctx
      | none => gem
    some ({ gemf with gems := gemf.gems ++ [gem] }, st)

/-- The symbol list at the head of a `group`/`platforms` statement
(part_004:843/893): symbols separated by commas, returning the first
non-comma token. -/
def gemfile_parser_group_names : Nat → List String → gemfile_parser_state →
    Option (List String × GToken × gemfile_parser_state)
  | 0, _, _ => none
  | fuel + 1, acc, st =>
    match gemfile_parser_expect_symbol st with
    | none => none
    | some (symbol, st) =>
      let acc := acc ++ [symbol]
      let (token, st) := gemfile_parser_next_token st
      if token = GToken.comma then gemfile_parser_group_names fuel acc st
      else some (acc, token, st)

mutual

/-- `gemfile_parser_process_code_block` (part_004:1272), specialised to the
two callers: `toplevel = true` ends at EOF with no end-statement list;
`toplevel = false` is a `do` block ending at the identifier `end`.  The
unimplemented `if` statement and unexpected tokens abort.  `fs` is the
readable filesystem seen by `eval_gemfile` includes: a map from path to
that file's token stream. -/
def gemfile_parser_process_code_block : Nat → List (String × List GToken) → Bool →
    bundler_gemfile → gemfile_parser_state → Option (bundler_gemfile × gemfile_parser_state)
  | 0, _, _, _, _ => none
  | fuel + 1, fs, toplevel, gemf, st =>
    let (token, st) := gemfile_parser_next_token st
    match token with
    | .eof => if toplevel then some (gemf, st) else none
    | .ident identifier =>
      if toplevel = false ∧ identifier = "end" then
        match gemfile_parser_expect_eol st with
        | none => none
        | some st' => some (gemf, st')
      else if identifier = "if" then none
      else
        match gemfile_parser_process_statement fuel fs gemf st identifier with
        | none => none
        | some (gemf, st) => gemfile_parser_process_code_block fuel fs toplevel gemf st
    | _ => none

/-- `gemfile_parser_process_statement` (part_004:1310): dispatch on the
statement head identifier.  Note that the `eval_gemfile` branch is NOT
guarded by the execute flag. -/
def gemfile_parser_process_statement : Nat → List (String × List GToken) →
    bundler_gemfile → gemfile_parser_state → String →
    Option (bundler_gemfile × gemfile_parser_state)
  | fuel, fs, gemf, st, identifier =>
    if identifier = "source" then gemfile_parser_process_source gemf st
    else if identifier = "ruby" then gemfile_parser_process_ruby fuel gemf st
    else if identifier = "gemspec" then gemfile_parser_process_gemspec gemf st
    else if identifier = "group" then gemfile_parser_process_group fuel fs gemf st
    else if identifier = "platforms" ∨ identifier = "platform" then
      gemfile_parser_process_platform fuel fs gemf st
    else if identifier = "gem" then gemfile_parser_process_gem fuel gemf st
    else if identifier = "eval_gemfile" then gemfile_parser_process_include fuel fs gemf st
    else none

/-- `gemfile_parser_process_group` (part_004:836): collect the group
symbols; a bare statement ending at EOL is accepted with no effect; a
`do` block saves the execute flag, clears it when the (still-executing)
context fails `bundler_context_match_group`, processes the block and
restores the flag.  (With execute set the C code dereferences the bundler
context unconditionally, so a missing context is not meaningful there.) -/
def gemfile_parser_process_group : Nat → List (String × List GToken) →
    bundler_gemfile → gemfile_parser_state → Option (bundler_gemfile × gemfile_parser_state)
  | fuel, fs, gemf, st =>
    match gemfile_parser_group_names fuel [] st with
    | none => none
    | some (group_names, token, st) =>
      if __bundler_gemfile_token_is_eol token then some (gemf, st)
      else if token = GToken.ident "do" then
        match gemfile_parser_expect_eol st with
        | none => none
        | some st1 =>
          let execute := st1.execute
          let st2 : Option gemfile_parser_state :=
            if execute = false then some st1
            else
              match st1.bundler_ctx with
              | none => none
              | some ctx =>
                if ¬ bundler_context_match_group ctx group_names then
                  some { st1 with execute := false }
                else some st1
          match st2 with
          | none => none
          | some st2 =>
            match gemfile_parser_process_code_block fuel fs false gemf st2 with
            | none => none
            | some (gemf, st3) => some (gemf, { st3 with execute := execute })
      else none

/-- `gemfile_parser_process_platform` (part_004:886): as
`gemfile_parser_process_group` but against the active platforms. -/
def gemfile_parser_process_platform : Nat → List (String × List GToken) →
    bundler_gemfile → gemfile_parser_state → Option (bundler_gemfile × gemfile_parser_state)
  | fuel, fs, gemf, st =>
    match gemfile_parser_group_names fuel [] st with
    | none => none
    | some (platform_names, token, st) =>
      if __bundler_gemfile_token_is_eol token then some (gemf, st)
      else if token = GToken.ident "do" then
        match gemfile_parser_expect_eol st with
        | none => none
        | some st1 =>
          let execute := st1.execute
          let st2 : Option gemfile_parser_state :=
            if execute = false then some st1
            else
              match st1.bundler_ctx with
              | none => none
              | some ctx =>
                if ¬ bundler_context_match_platform ctx platform_names then
                  some { st1 with execute := false }
                else some st1
          match st2 with
          | none => none
          | some st2 =>
            match gemfile_parser_process_code_block fuel fs false gemf st2 with
            | none => none
            | some (gemf, st3) => some (gemf, { st3 with execute := execute })
      else none

/-- `gemfile_parser_process_include` (part_004:806) with
`__bundler_gemfile_eval` (part_004:1478) and
`gemfile_parser_process_toplevel` (part_004:1346) inlined: the include
path is read (NOT guarded by the execute flag), the file is opened (`fs`
maps a path to its token stream, a missing path is the `fopen` failure),
and the included file is evaluated onto the SAME gemfile by a fresh
parser state (`gemfile_parser_init` zeroes it) whose execute flag is set
to true by `gemfile_parser_process_toplevel` and which shares the
bundler context; its final state is discarded, and the include line must
then end.  The C additionally rewrites a relative path against
dirname(filename) before opening; that lexical path munging is not
modelled, the path string keys `fs` as given. -/
def gemfile_parser_process_include : Nat → List (String × List GToken) →
    bundler_gemfile → gemfile_parser_state → Option (bundler_gemfile × gemfile_parser_state)
  | fuel, fs, gemf, st =>
    match gemfile_parser_expect_string st with
    | none => none
    | some (string, st) =>
      match fs.lookup string with
      | none => none
      | some file_tokens =>
        match gemfile_parser_process_code_block fuel fs true gemf
            { tokens := file_tokens, ignore_eol := 0, execute := true,
              bundler_ctx := st.bundler_ctx } with
        | none => none
        | some (gemf, _) =>
          match gemfile_parser_expect_eol st with
          | none => none
          | some st => some (gemf, st)

end

/-- `gemfile_parser_process_do_block` (part_004:1332). -/
def gemfile_parser_process_do_block (fuel : Nat) (fs : List (String × List GToken))
    (gemf : bundler_gemfile) (st : gemfile_parser_state) :
    Option (bundler_gemfile × gemfile_parser_state) :=
  gemfile_parser_process_code_block fuel fs false gemf st

/-- `gemfile_parser_process_toplevel` (part_004:1345): the execute flag
starts true and the block ends at EOF. -/
def gemfile_parser_process_toplevel (fuel : Nat) (fs : List (String × List GToken))
    (gemf : bundler_gemfile) (st : gemfile_parser_state) :
    Option (bundler_gemfile × gemfile_parser_state) :=
  gemfile_parser_process_code_block fuel fs true gemf { st with execute := true }

end Minibuild

namespace Minibuild

/-! ## Claim C2 -/

/-- C2, counter-evaluation: the repository's own fixnum encoder emits the
width-4 form `04 00 00 00 01` for `2^24 = 16777216`, but the decoder's
switch lacks `case 4`, so the byte `0x04` falls into the default small-int
branch and decodes to `4 - 5 = -1` without consuming the four payload
bytes.  The value that the claim (and the spec table) requires, 16777216,
is not produced. -/
theorem C2_fixnum_width4_not_decoded :
    ruby_marshal_fixnum 16777216 = some [4, 0, 0, 0, 1] ∧
    ruby_unmarshal_next_fixnum [4, 0, 0, 0, 1] = some (-1, [0, 0, 0, 1]) ∧
    (-1 : Int) ≠ 16777216 := by
  refine ⟨?_, by decide, by decide⟩
  have h : leBytes 16777216 = [0, 0, 0, 1] := by
    rw [leBytes]; norm_num
    rw [leBytes]; norm_num
    rw [leBytes]; norm_num
    rw [leBytes]; norm_num
    rw [leBytes]
  simp [ruby_marshal_fixnum, h]

/-! ## Claim C3 -/

/-- C3, counterexample: for first byte `c = 0x81` the claim demands the
value `c - 0x80 - 5 = -4`, but `ruby_unmarshal_next_fixnum` computes
`0x80 - c - 5 = -6`. -/
theorem C3_counterexample :
    ruby_unmarshal_next_fixnum [0x81] = some (-6, []) ∧
    ((0x81 : Int) - 0x80 - 5 = -4) ∧ (-6 : Int) ≠ -4 := by
  refine ⟨by decide, by decide, by decide⟩

/-- C3 (amended): when the first byte `c` is none of the special cases
(`0x00`, `0x01`-`0x03`, `0x04`, `0xfc`-`0xff`) and `c ≥ 0x80`, the decoded
value is `0x80 - c - 5` (a small negative number), the rest of the input
being left untouched. -/
theorem C3_amended_high_byte_value (c : Nat) (rest : List Nat)
    (hlo : 0x80 ≤ c) (hhi : c ≤ 0xfb) :
    ruby_unmarshal_next_fixnum (c :: rest) = some (0x80 - (c : Int) - 5, rest) := by
  have h1 : ¬ c = 0 := by omega
  have h2 : ¬ (c = 1 ∨ c = 2 ∨ c = 3) := by omega
  have h3 : ¬ c = 0xff := by omega
  have h4 : ¬ (c = 0xfe ∨ c = 0xfd ∨ c = 0xfc) := by omega
  have h5 : ¬ c < 0x80 := by omega
  simp [ruby_unmarshal_next_fixnum, ruby_io_nextc, h1, h2, h3, h4, h5]

/-- Witness for `C3_amended_high_byte_value` at `c = 0x90`. -/
theorem C3_amended_high_byte_value_witness :
    ruby_unmarshal_next_fixnum [0x90, 7] = some (0x80 - (0x90 : Int) - 5, [7]) :=
  C3_amended_high_byte_value 0x90 [7] (by decide) (by decide)

/-! ## Bounds on decodable fixnums (shared helper lemmas) -/

theorem ruby_io_nextw_nonneg (count : Nat) :
    ∀ input v rest, ruby_io_nextw count input = some (v, rest) → 0 ≤ v := by
  induction count with
  | zero =>
    intro input v rest h
    simp [ruby_io_nextw] at h
    omega
  | succ n ih =>
    intro input v rest h
    match input with
    | [] => simp [ruby_io_nextw, ruby_io_nextc] at h
    | b :: tl =>
      simp only [ruby_io_nextw, ruby_io_nextc] at h
      match hrec : ruby_io_nextw n tl with
      | none => rw [hrec] at h; simp at h
      | some (v', rest') =>
        rw [hrec] at h
        simp at h
        have := ih tl v' rest' hrec
        omega

theorem ruby_io_nextw_lt (count : Nat) :
    ∀ input v rest, (∀ b ∈ input, b < 256) →
      ruby_io_nextw count input = some (v, rest) → v < 256 ^ count := by
  induction count with
  | zero =>
    intro input v rest _ h
    simp [ruby_io_nextw] at h
    omega
  | succ n ih =>
    intro input v rest hb h
    match input with
    | [] => simp [ruby_io_nextw, ruby_io_nextc] at h
    | b :: tl =>
      simp only [ruby_io_nextw, ruby_io_nextc] at h
      match hrec : ruby_io_nextw n tl with
      | none => rw [hrec] at h; simp at h
      | some (v', rest') =>
        rw [hrec] at h
        simp at h
        have hvlt := ih tl v' rest' (fun x hx => hb x (List.mem_cons_of_mem b hx)) hrec
        have hblt : b < 256 := hb b (List.mem_cons_self b tl)
        have : v = (b : Int) + 256 * v' := h.1.symm
        have h256 : (256 : Int) ^ (n + 1) = 256 * 256 ^ n := by ring
        have hcast : ((256 : Nat) : Int) ^ (n + 1) = (256 : Int) ^ (n + 1) := by norm_num
        rw [this]
        have : (b : Int) < 256 := by exact_mod_cast hblt
        nlinarith [hvlt, ruby_io_nextw_nonneg n tl v' rest' hrec]

theorem next_fixnum_lower_bound (input : List Nat) (v : Int) (rest : List Nat)
    (hb : ∀ b ∈ input, b < 256)
    (h : ruby_unmarshal_next_fixnum input = some (v, rest)) : -256 < v := by
  match input with
  | [] => simp [ruby_unmarshal_next_fixnum, ruby_io_nextc] at h
  | c :: tl =>
    have hc : c < 256 := hb c (List.mem_cons_self c tl)
    simp only [ruby_unmarshal_next_fixnum, ruby_io_nextc] at h
    by_cases h0 : c = 0
    · simp [h0] at h; omega
    by_cases h123 : c = 1 ∨ c = 2 ∨ c = 3
    · simp [h0, h123] at h
      have := ruby_io_nextw_nonneg c tl v rest h
      omega
    by_cases hff : c = 0xff
    · simp [h0, h123, hff] at h
      match tl with
      | [] => simp [ruby_io_nextc] at h
      | b :: tl' =>
        have hblt : b < 256 := hb b (by simp)
        simp [ruby_io_nextc] at h
        omega
    by_cases hneg : c = 0xfe ∨ c = 0xfd ∨ c = 0xfc
    · simp [h0, h123, hff, hneg] at h
    by_cases hsm : c < 0x80
    · simp [h0, h123, hff, hneg, hsm] at h
      omega
    · simp [h0, h123, hff, hneg, hsm] at h
      omega

theorem next_fixnum_upper_bound (input : List Nat) (v : Int) (rest : List Nat)
    (hb : ∀ b ∈ input, b < 256)
    (h : ruby_unmarshal_next_fixnum input = some (v, rest)) : v < 16777216 := by
  match input with
  | [] => simp [ruby_unmarshal_next_fixnum, ruby_io_nextc] at h
  | c :: tl =>
    have hc : c < 256 := hb c (List.mem_cons_self c tl)
    simp only [ruby_unmarshal_next_fixnum, ruby_io_nextc] at h
    by_cases h0 : c = 0
    · simp [h0] at h; omega
    by_cases h123 : c = 1 ∨ c = 2 ∨ c = 3
    · simp [h0, h123] at h
      have htl : ∀ b ∈ tl, b < 256 := fun x hx => hb x (List.mem_cons_of_mem c hx)
      have := ruby_io_nextw_lt c tl v rest htl h
      have hle : (256 : Int) ^ c ≤ 256 ^ 3 := by
        apply pow_le_pow_right₀ (by norm_num)
        omega
      have : (256 : Int) ^ 3 = 16777216 := by norm_num
      omega
    by_cases hff : c = 0xff
    · simp [h0, h123, hff] at h
      match tl with
      | [] => simp [ruby_io_nextc] at h
      | b :: tl' =>
        simp [ruby_io_nextc] at h
        omega
    by_cases hneg : c = 0xfe ∨ c = 0xfd ∨ c = 0xfc
    · simp [h0, h123, hff, hneg] at h
    by_cases hsm : c < 0x80
    · simp [h0, h123, hff, hneg, hsm] at h
      omega
    · simp [h0, h123, hff, hneg, hsm] at h
      omega

/-! ## Claim C7 -/

/-- C7: a fixnum whose first byte is `0xfc`, `0xfd` or `0xfe` fails to
decode (the switch raises NotImplementedError and returns false before the
commented-out negative branch), and every successfully decoded fixnum is
greater than `-256`, so no negative integer of magnitude ≥ 256 is
decodable. -/
theorem C7_overlong_negative_fixnums_rejected :
    (∀ c rest, (c = 0xfc ∨ c = 0xfd ∨ c = 0xfe) →
      ruby_unmarshal_next_fixnum (c :: rest) = none) ∧
    (∀ input v rest, (∀ b ∈ input, b < 256) →
      ruby_unmarshal_next_fixnum input = some (v, rest) → -256 < v) := by
  constructor
  · intro c rest hc
    rcases hc with h | h | h <;> subst h <;>
      simp [ruby_unmarshal_next_fixnum, ruby_io_nextc]
  · intro input v rest hb h
    exact next_fixnum_lower_bound input v rest hb h

/-- Witness for `C7_overlong_negative_fixnums_rejected`: the first byte
`0xfc` is rejected, and the concrete decode of `[0xff, 200]` yields `-199`,
which the theorem bounds below by `-256`. -/
theorem C7_overlong_negative_fixnums_rejected_witness :
    ruby_unmarshal_next_fixnum [0xfc, 1, 1, 1, 1] = none ∧
    ruby_unmarshal_next_fixnum [0xff, 200] = some (-199, []) ∧ (-256 : Int) < -199 := by
  refine ⟨C7_overlong_negative_fixnums_rejected.1 0xfc [1, 1, 1, 1] (by decide), by decide, ?_⟩
  exact C7_overlong_negative_fixnums_rejected.2 [0xff, 200] (-199) [] (by decide) (by decide)

/-! ## Context-extension infrastructure for the decoder -/

theorem ctxExtends_refl (a : RubyContext) : ctxExtends a a :=
  ⟨le_refl _, ⟨[], by simp⟩, ⟨[], by simp⟩⟩

theorem ctxExtends_trans {a b c : RubyContext}
    (hab : ctxExtends a b) (hbc : ctxExtends b c) : ctxExtends a c := by
  obtain ⟨hlab, ⟨d1, hd1, hd1b⟩, ⟨e1, he1, he1b⟩⟩ := hab
  obtain ⟨hlbc, ⟨d2, hd2, hd2b⟩, ⟨e2, he2, he2b⟩⟩ := hbc
  refine ⟨le_trans hlab hlbc, ⟨d1 ++ d2, ?_, ?_⟩, ⟨e1 ++ e2, ?_, ?_⟩⟩
  · rw [hd2, hd1, List.append_assoc]
  · intro j hj
    rcases List.mem_append.mp hj with hj | hj
    · exact hd1b j hj
    · exact le_trans hlab (hd2b j hj)
  · rw [he2, he1, List.append_assoc]
  · intro j hj
    rcases List.mem_append.mp hj with hj | hj
    · exact he1b j hj
    · exact le_trans hlab (he2b j hj)

theorem ctxExtends_of_tables_eq {a b : RubyContext}
    (hlen : b.heap.length = a.heap.length)
    (ho : b.objects = a.objects) (hs : b.symbols = a.symbols) : ctxExtends a b :=
  ⟨le_of_eq hlen.symm, ⟨[], by simp [ho]⟩, ⟨[], by simp [hs]⟩⟩

theorem ctxWF_of_tables_eq {a b : RubyContext}
    (hlen : b.heap.length = a.heap.length)
    (ho : b.objects = a.objects) (hs : b.symbols = a.symbols)
    (hwf : ctxWF a) : ctxWF b := by
  obtain ⟨hwo, hws⟩ := hwf
  exact ⟨fun j hj => hlen ▸ hwo j (ho ▸ hj), fun j hj => hlen ▸ hws j (hs ▸ hj)⟩

theorem ctxWF_empty : ctxWF RubyContext.empty := by
  constructor <;> intro j hj <;> simp [RubyContext.empty] at hj

/-! ### `__ruby_instance_new` -/

theorem instance_new_fst (ctx : RubyContext) (obj : RObj) :
    (__ruby_instance_new ctx obj).1 = ctx.heap.length := by
  unfold __ruby_instance_new
  cases h : obj.registration <;> simp

theorem instance_new_heap (ctx : RubyContext) (obj : RObj) :
    (__ruby_instance_new ctx obj).2.heap = ctx.heap ++ [obj] := by
  unfold __ruby_instance_new
  cases h : obj.registration <;> simp

theorem instance_new_heap_len (ctx : RubyContext) (obj : RObj) :
    (__ruby_instance_new ctx obj).2.heap.length = ctx.heap.length + 1 := by
  rw [instance_new_heap]; simp

theorem instance_new_objects_of_object (ctx : RubyContext) (obj : RObj)
    (h : obj.registration = .object) :
    (__ruby_instance_new ctx obj).2.objects = ctx.objects ++ [ctx.heap.length] := by
  unfold __ruby_instance_new
  rw [h]

theorem instance_new_objects_of_nonobject (ctx : RubyContext) (obj : RObj)
    (h : obj.registration ≠ .object) :
    (__ruby_instance_new ctx obj).2.objects = ctx.objects := by
  unfold __ruby_instance_new
  cases hreg : obj.registration <;> simp_all

theorem instance_new_symbols_of_symbol (ctx : RubyContext) (obj : RObj)
    (h : obj.registration = .symbol) :
    (__ruby_instance_new ctx obj).2.symbols = ctx.symbols ++ [ctx.heap.length] := by
  unfold __ruby_instance_new
  rw [h]

theorem instance_new_symbols_of_nonsymbol (ctx : RubyContext) (obj : RObj)
    (h : obj.registration ≠ .symbol) :
    (__ruby_instance_new ctx obj).2.symbols = ctx.symbols := by
  unfold __ruby_instance_new
  cases hreg : obj.registration <;> simp_all

theorem instance_new_extends (ctx : RubyContext) (obj : RObj) :
    ctxExtends ctx (__ruby_instance_new ctx obj).2 := by
  refine ⟨by rw [instance_new_heap_len]; omega, ?_, ?_⟩
  · by_cases h : obj.registration = .object
    · exact ⟨[ctx.heap.length], by rw [instance_new_objects_of_object ctx obj h], by simp⟩
    · exact ⟨[], by rw [instance_new_objects_of_nonobject ctx obj h]; simp, by simp⟩
  · by_cases h : obj.registration = .symbol
    · exact ⟨[ctx.heap.length], by rw [instance_new_symbols_of_symbol ctx obj h], by simp⟩
    · exact ⟨[], by rw [instance_new_symbols_of_nonsymbol ctx obj h]; simp, by simp⟩

theorem instance_new_wf (ctx : RubyContext) (obj : RObj) (hwf : ctxWF ctx) :
    ctxWF (__ruby_instance_new ctx obj).2 := by
  obtain ⟨hwo, hws⟩ := hwf
  constructor
  · intro j hj
    rw [instance_new_heap_len]
    by_cases h : obj.registration = .object
    · rw [instance_new_objects_of_object ctx obj h] at hj
      rcases List.mem_append.mp hj with hj | hj
      · exact Nat.lt_succ_of_lt (hwo j hj)
      · simp at hj; omega
    · rw [instance_new_objects_of_nonobject ctx obj h] at hj
      exact Nat.lt_succ_of_lt (hwo j hj)
  · intro j hj
    rw [instance_new_heap_len]
    by_cases h : obj.registration = .symbol
    · rw [instance_new_symbols_of_symbol ctx obj h] at hj
      rcases List.mem_append.mp hj with hj | hj
      · exact Nat.lt_succ_of_lt (hws j hj)
      · simp at hj; omega
    · rw [instance_new_symbols_of_nonsymbol ctx obj h] at hj
      exact Nat.lt_succ_of_lt (hws j hj)

/-! ### Table preservation of the mutating helpers -/

theorem heapSet_tables (ctx : RubyContext) (id : Nat) (obj : RObj) :
    (heapSet ctx id obj).heap.length = ctx.heap.length ∧
    (heapSet ctx id obj).objects = ctx.objects ∧
    (heapSet ctx id obj).symbols = ctx.symbols := by
  simp [heapSet]

theorem ruby_Array_append_tables {ctx : RubyContext} {id : Nat} {item : RVal}
    {ctx' : RubyContext} (h : ruby_Array_append ctx id item = some ctx') :
    ctx'.heap.length = ctx.heap.length ∧ ctx'.objects = ctx.objects ∧
    ctx'.symbols = ctx.symbols := by
  unfold ruby_Array_append at h
  split at h
  · simp only [Option.some.injEq] at h
    subst h
    simp [heapSet]
  · simp at h

theorem ruby_Hash_add_tables {ctx : RubyContext} {id : Nat} {key value : RVal}
    {ctx' : RubyContext} (h : ruby_Hash_add ctx id key value = some ctx') :
    ctx'.heap.length = ctx.heap.length ∧ ctx'.objects = ctx.objects ∧
    ctx'.symbols = ctx.symbols := by
  unfold ruby_Hash_add at h
  split at h
  · simp only [Option.some.injEq] at h
    subst h
    simp [heapSet]
  · simp at h

theorem ruby_String_set_var_tables {ctx : RubyContext} {key value : RVal}
    {ctx' : RubyContext} (h : ruby_String_set_var ctx key value = some ctx') :
    ctx' = ctx := by
  unfold ruby_String_set_var at h
  split at h
  · simp at h
  · split at h
    · split at h
      · simp only [Option.some.injEq] at h
        exact h.symm
      · simp at h
    · simp at h

theorem ruby_GenericObject_set_var_tables {ctx : RubyContext} {id : Nat}
    {key value : RVal} {ctx' : RubyContext}
    (h : ruby_GenericObject_set_var ctx id key value = some ctx') :
    ctx'.heap.length = ctx.heap.length ∧ ctx'.objects = ctx.objects ∧
    ctx'.symbols = ctx.symbols := by
  unfold ruby_GenericObject_set_var at h
  split at h <;>
    first
      | (simp only [Option.some.injEq] at h
         subst h
         simp [heapSet])
      | simp at h

theorem ruby_instance_set_var_tables {ctx : RubyContext} {target key value : RVal}
    {ctx' : RubyContext} (h : ruby_instance_set_var ctx target key value = some ctx') :
    ctx'.heap.length = ctx.heap.length ∧ ctx'.objects = ctx.objects ∧
    ctx'.symbols = ctx.symbols := by
  unfold ruby_instance_set_var at h
  split at h
  case _ id =>
    split at h
    · have := ruby_String_set_var_tables h
      simp [this]
    · exact ruby_GenericObject_set_var_tables h
    · exact ruby_GenericObject_set_var_tables h
    · exact ruby_GenericObject_set_var_tables h
    · simp at h
  · simp at h

theorem ruby_UserDefined_set_data_tables {ctx : RubyContext} {id : Nat}
    {data : List Nat} {ctx' : RubyContext}
    (h : ruby_UserDefined_set_data ctx id data = some ctx') :
    ctx'.heap.length = ctx.heap.length ∧ ctx'.objects = ctx.objects ∧
    ctx'.symbols = ctx.symbols := by
  unfold ruby_UserDefined_set_data at h
  split at h <;>
    first
      | (simp only [Option.some.injEq] at h
         subst h
         simp [heapSet])
      | simp at h

theorem ruby_UserMarshal_set_data_tables {ctx : RubyContext} {id : Nat}
    {data : RVal} {ctx' : RubyContext}
    (h : ruby_UserMarshal_set_data ctx id data = some ctx') :
    ctx'.heap.length = ctx.heap.length ∧ ctx'.objects = ctx.objects ∧
    ctx'.symbols = ctx.symbols := by
  unfold ruby_UserMarshal_set_data at h
  split at h <;>
    first
      | (simp only [Option.some.injEq] at h
         subst h
         simp [heapSet])
      | simp at h

theorem ruby_array_get_mem {arr : List Nat} {idx : Nat} {id : Nat}
    (h : ruby_array_get arr idx = some id) : id ∈ arr := by
  unfold ruby_array_get at h
  split at h
  · simp at h
  · exact List.get?_mem h

theorem ruby_SymbolReference_post {ctx : RubyContext} {input : List Nat}
    {v : RVal} {ctx' : RubyContext} {rest : List Nat}
    (h : ruby_SymbolReference_unmarshal ctx input = some (v, ctx', rest)) :
    ctx' = ctx ∧ ∃ id, v = RVal.ref id ∧ id ∈ ctx.symbols := by
  unfold ruby_SymbolReference_unmarshal at h
  split at h
  · simp at h
  · split at h
    · simp at h
    · rename_i ref rest' id hget
      simp only [Option.some.injEq, Prod.mk.injEq] at h
      obtain ⟨hv, hctx, _⟩ := h
      exact ⟨hctx.symm, id, hv.symm, ruby_array_get_mem hget⟩

theorem ruby_ObjectReference_post {ctx : RubyContext} {input : List Nat}
    {v : RVal} {ctx' : RubyContext} {rest : List Nat}
    (h : ruby_ObjectReference_unmarshal ctx input = some (v, ctx', rest)) :
    ctx' = ctx ∧ ∃ id, v = RVal.ref id ∧ id ∈ ctx.objects := by
  unfold ruby_ObjectReference_unmarshal at h
  split at h
  · simp at h
  · split at h
    · simp at h
    · rename_i ref rest' id hget
      simp only [Option.some.injEq, Prod.mk.injEq] at h
      obtain ⟨hv, hctx, _⟩ := h
      exact ⟨hctx.symm, id, hv.symm, ruby_array_get_mem hget⟩

/-! ### Loop postconditions, parameterised by the decode postcondition at
the same fuel -/

theorem items_post (fuel : Nat) (ihn : NextInstancePost fuel) :
    ∀ n id ctx input ctx' rest, ctxWF ctx →
      ruby_Array_unmarshal_items fuel n id ctx input = some (ctx', rest) →
      ctxExtends ctx ctx' ∧ ctxWF ctx' := by
  intro n
  induction n with
  | zero =>
    intro id ctx input ctx' rest hwf h
    simp only [ruby_Array_unmarshal_items, Option.some.injEq, Prod.mk.injEq] at h
    obtain ⟨rfl, rfl⟩ := h
    exact ⟨ctxExtends_refl ctx, hwf⟩
  | succ k ih =>
    intro id ctx input ctx' rest hwf h
    simp only [ruby_Array_unmarshal_items] at h
    cases hni : ruby_unmarshal_next_instance fuel ctx input with
    | none => rw [hni] at h; simp at h
    | some r =>
      obtain ⟨item, ctx1, input1⟩ := r
      rw [hni] at h
      simp only at h
      cases happ : ruby_Array_append ctx1 id item with
      | none => rw [happ] at h; simp at h
      | some ctx2 =>
        rw [happ] at h
        simp only at h
        obtain ⟨hext1, hwf1, _⟩ := ihn ctx input item ctx1 input1 hwf hni
        obtain ⟨hlen2, ho2, hs2⟩ := ruby_Array_append_tables happ
        have hext2 := ctxExtends_of_tables_eq hlen2 ho2 hs2
        have hwf2 := ctxWF_of_tables_eq hlen2 ho2 hs2 hwf1
        obtain ⟨hext3, hwf3⟩ := ih id ctx2 input1 ctx' rest hwf2 h
        exact ⟨ctxExtends_trans (ctxExtends_trans hext1 hext2) hext3, hwf3⟩

theorem pairs_post (fuel : Nat) (ihn : NextInstancePost fuel) :
    ∀ n id ctx input ctx' rest, ctxWF ctx →
      ruby_Hash_unmarshal_pairs fuel n id ctx input = some (ctx', rest) →
      ctxExtends ctx ctx' ∧ ctxWF ctx' := by
  intro n
  induction n with
  | zero =>
    intro id ctx input ctx' rest hwf h
    simp only [ruby_Hash_unmarshal_pairs, Option.some.injEq, Prod.mk.injEq] at h
    obtain ⟨rfl, rfl⟩ := h
    exact ⟨ctxExtends_refl ctx, hwf⟩
  | succ k ih =>
    intro id ctx input ctx' rest hwf h
    simp only [ruby_Hash_unmarshal_pairs] at h
    cases hk : ruby_unmarshal_next_instance fuel ctx input with
    | none => rw [hk] at h; simp at h
    | some rk =>
      obtain ⟨key, ctx1, input1⟩ := rk
      rw [hk] at h
      simp only at h
      cases hv : ruby_unmarshal_next_instance fuel ctx1 input1 with
      | none => rw [hv] at h; simp at h
      | some rv =>
        obtain ⟨value, ctx2, input2⟩ := rv
        rw [hv] at h
        simp only at h
        cases hadd : ruby_Hash_add ctx2 id key value with
        | none => rw [hadd] at h; simp at h
        | some ctx3 =>
          rw [hadd] at h
          simp only at h
          obtain ⟨hext1, hwf1, _⟩ := ihn ctx input key ctx1 input1 hwf hk
          obtain ⟨hext2, hwf2, _⟩ := ihn ctx1 input1 value ctx2 input2 hwf1 hv
          obtain ⟨hlen3, ho3, hs3⟩ := ruby_Hash_add_tables hadd
          have hext3 := ctxExtends_of_tables_eq hlen3 ho3 hs3
          have hwf3 := ctxWF_of_tables_eq hlen3 ho3 hs3 hwf2
          obtain ⟨hext4, hwf4⟩ := ih id ctx3 input2 ctx' rest hwf3 h
          exact ⟨ctxExtends_trans (ctxExtends_trans (ctxExtends_trans hext1 hext2) hext3) hext4,
                 hwf4⟩

theorem ivars_post (fuel : Nat) (ihn : NextInstancePost fuel) :
    ∀ n target ctx input ctx' rest, ctxWF ctx →
      ruby_unmarshal_ivars fuel n target ctx input = some (ctx', rest) →
      ctxExtends ctx ctx' ∧ ctxWF ctx' := by
  intro n
  induction n with
  | zero =>
    intro target ctx input ctx' rest hwf h
    simp only [ruby_unmarshal_ivars, Option.some.injEq, Prod.mk.injEq] at h
    obtain ⟨rfl, rfl⟩ := h
    exact ⟨ctxExtends_refl ctx, hwf⟩
  | succ k ih =>
    intro target ctx input ctx' rest hwf h
    simp only [ruby_unmarshal_ivars] at h
    cases hk : ruby_unmarshal_next_instance fuel ctx input with
    | none => rw [hk] at h; simp at h
    | some rk =>
      obtain ⟨key, ctx1, input1⟩ := rk
      rw [hk] at h
      simp only at h
      cases hv : ruby_unmarshal_next_instance fuel ctx1 input1 with
      | none => rw [hv] at h; simp at h
      | some rv =>
        obtain ⟨value, ctx2, input2⟩ := rv
        rw [hv] at h
        simp only at h
        cases hsv : ruby_instance_set_var ctx2 target key value with
        | none => rw [hsv] at h; simp at h
        | some ctx3 =>
          rw [hsv] at h
          simp only at h
          obtain ⟨hext1, hwf1, _⟩ := ihn ctx input key ctx1 input1 hwf hk
          obtain ⟨hext2, hwf2, _⟩ := ihn ctx1 input1 value ctx2 input2 hwf1 hv
          obtain ⟨hlen3, ho3, hs3⟩ := ruby_instance_set_var_tables hsv
          have hext3 := ctxExtends_of_tables_eq hlen3 ho3 hs3
          have hwf3 := ctxWF_of_tables_eq hlen3 ho3 hs3 hwf2
          obtain ⟨hext4, hwf4⟩ := ih target ctx3 input2 ctx' rest hwf3 h
          exact ⟨ctxExtends_trans (ctxExtends_trans (ctxExtends_trans hext1 hext2) hext3) hext4,
                 hwf4⟩

theorem object_instance_post (fuel : Nat) (ihn : NextInstancePost fuel) :
    ∀ ctx input cn ctx' rest, ctxWF ctx →
      ruby_unmarshal_object_instance fuel ctx input = some (cn, ctx', rest) →
      ctxExtends ctx ctx' ∧ ctxWF ctx' := by
  intro ctx input cn ctx' rest hwf h
  simp only [ruby_unmarshal_object_instance] at h
  cases hni : ruby_unmarshal_next_instance fuel ctx input with
  | none => rw [hni] at h; simp at h
  | some r =>
    obtain ⟨nameInstance, ctx1, rest1⟩ := r
    rw [hni] at h
    simp only at h
    cases has : ruby_instance_as_string ctx1 nameInstance with
    | none => rw [has] at h; simp at h
    | some classname =>
      rw [has] at h
      simp only [Option.some.injEq, Prod.mk.injEq] at h
      obtain ⟨_, hctx, _⟩ := h
      obtain ⟨hext1, hwf1, _⟩ := ihn ctx input nameInstance ctx1 rest1 hwf hni
      exact hctx ▸ ⟨hext1, hwf1⟩

theorem object_instance_vars_post (fuel : Nat) (ihn : NextInstancePost fuel) :
    ∀ target ctx input ctx' rest, ctxWF ctx →
      ruby_unmarshal_object_instance_vars fuel target ctx input = some (ctx', rest) →
      ctxExtends ctx ctx' ∧ ctxWF ctx' := by
  intro target ctx input ctx' rest hwf h
  simp only [ruby_unmarshal_object_instance_vars] at h
  cases hfx : ruby_unmarshal_next_fixnum input with
  | none => rw [hfx] at h; simp at h
  | some r =>
    obtain ⟨count, rest0⟩ := r
    rw [hfx] at h
    simp only at h
    exact ivars_post fuel ihn count.toNat target ctx rest0 ctx' rest hwf h

/-- The decode driver satisfies the arena postcondition at every fuel:
decoding extends the arenas monotonically, preserves well-formedness, and
returns references into the final heap. -/
theorem next_instance_post : ∀ fuel, NextInstancePost fuel := by
  intro fuel
  induction fuel with
  | zero =>
    intro ctx input v ctx' rest hwf h
    simp [ruby_unmarshal_next_instance] at h
  | succ n ih =>
    intro ctx input v ctx' rest hwf h
    cases input with
    | nil => simp [ruby_unmarshal_next_instance, ruby_io_nextc] at h
    | cons cc tl =>
      simp only [ruby_unmarshal_next_instance, ruby_io_nextc] at h
      by_cases h84 : cc = 84
      -- 'T'
      · rw [if_pos h84] at h
        simp only [Option.some.injEq, Prod.mk.injEq] at h
        obtain ⟨hv, hctx, hrest⟩ := h
        subst hv; subst hctx
        exact ⟨ctxExtends_refl ctx, hwf, fun id hid => by simp at hid⟩
      rw [if_neg h84] at h
      by_cases h70 : cc = 70
      -- 'F'
      · rw [if_pos h70] at h
        simp only [Option.some.injEq, Prod.mk.injEq] at h
        obtain ⟨hv, hctx, hrest⟩ := h
        subst hv; subst hctx
        exact ⟨ctxExtends_refl ctx, hwf, fun id hid => by simp at hid⟩
      rw [if_neg h70] at h
      by_cases h48 : cc = 48
      -- '0'
      · rw [if_pos h48] at h
        simp only [Option.some.injEq, Prod.mk.injEq] at h
        obtain ⟨hv, hctx, hrest⟩ := h
        subst hv; subst hctx
        exact ⟨ctxExtends_refl ctx, hwf, fun id hid => by simp at hid⟩
      rw [if_neg h48] at h
      by_cases h105 : cc = 105
      -- 'i'
      · rw [if_pos h105] at h
        cases hfx : ruby_unmarshal_next_fixnum tl with
        | none => rw [hfx] at h; simp at h
        | some r =>
          obtain ⟨value, rest'⟩ := r
          rw [hfx] at h
          simp only at h
          rw [← Prod.mk.eta (p := __ruby_instance_new ctx (RObj.int value))] at h
          simp only [Option.some.injEq, Prod.mk.injEq] at h
          obtain ⟨hv, hctx, hrest⟩ := h
          subst hv; subst hctx
          refine ⟨instance_new_extends ctx (RObj.int value),
                  instance_new_wf ctx (RObj.int value) hwf, ?_⟩
          intro id hid
          simp only [RVal.ref.injEq] at hid
          rw [← hid, instance_new_fst, instance_new_heap_len]
          omega
      rw [if_neg h105] at h
      by_cases h58 : cc = 58
      -- ':'
      · rw [if_pos h58] at h
        cases hns : ruby_unmarshal_next_string tl with
        | none => rw [hns] at h; simp at h
        | some r =>
          obtain ⟨name, rest'⟩ := r
          rw [hns] at h
          simp only at h
          rw [← Prod.mk.eta (p := __ruby_instance_new ctx (RObj.sym name))] at h
          simp only [Option.some.injEq, Prod.mk.injEq] at h
          obtain ⟨hv, hctx, hrest⟩ := h
          subst hv; subst hctx
          refine ⟨instance_new_extends ctx (RObj.sym name),
                  instance_new_wf ctx (RObj.sym name) hwf, ?_⟩
          intro id hid
          simp only [RVal.ref.injEq] at hid
          rw [← hid, instance_new_fst, instance_new_heap_len]
          omega
      rw [if_neg h58] at h
      by_cases h59 : cc = 59
      -- ';'
      · rw [if_pos h59] at h
        obtain ⟨hctx, id, hv, hmem⟩ := ruby_SymbolReference_post h
        subst hctx; subst hv
        refine ⟨ctxExtends_refl ctx', hwf, ?_⟩
        intro id' hid'
        simp only [RVal.ref.injEq] at hid'
        exact hid' ▸ hwf.2 id hmem
      rw [if_neg h59] at h
      by_cases h64 : cc = 64
      -- '@'
      · rw [if_pos h64] at h
        obtain ⟨hctx, id, hv, hmem⟩ := ruby_ObjectReference_post h
        subst hctx; subst hv
        refine ⟨ctxExtends_refl ctx', hwf, ?_⟩
        intro id' hid'
        simp only [RVal.ref.injEq] at hid'
        exact hid' ▸ hwf.1 id hmem
      rw [if_neg h64] at h
      by_cases h34 : cc = 34
      -- '"'
      · rw [if_pos h34] at h
        cases hns : ruby_unmarshal_next_string tl with
        | none => rw [hns] at h; simp at h
        | some r =>
          obtain ⟨value, rest'⟩ := r
          rw [hns] at h
          simp only at h
          rw [← Prod.mk.eta (p := __ruby_instance_new ctx (RObj.str value))] at h
          simp only [Option.some.injEq, Prod.mk.injEq] at h
          obtain ⟨hv, hctx, hrest⟩ := h
          subst hv; subst hctx
          refine ⟨instance_new_extends ctx (RObj.str value),
                  instance_new_wf ctx (RObj.str value) hwf, ?_⟩
          intro id hid
          simp only [RVal.ref.injEq] at hid
          rw [← hid, instance_new_fst, instance_new_heap_len]
          omega
      rw [if_neg h34] at h
      by_cases h91 : cc = 91
      -- '['
      · rw [if_pos h91] at h
        cases hfx : ruby_unmarshal_next_fixnum tl with
        | none => rw [hfx] at h; simp at h
        | some r =>
          obtain ⟨count, rest'⟩ := r
          rw [hfx] at h
          simp only at h
          rw [← Prod.mk.eta (p := __ruby_instance_new ctx (RObj.arr []))] at h
          simp only at h
          cases hit : ruby_Array_unmarshal_items n count.toNat
              (__ruby_instance_new ctx (RObj.arr [])).1
              (__ruby_instance_new ctx (RObj.arr [])).2 rest' with
          | none => rw [hit] at h; simp at h
          | some r2 =>
            obtain ⟨ctx2, rest2⟩ := r2
            rw [hit] at h
            simp only [Option.some.injEq, Prod.mk.injEq] at h
            obtain ⟨hv, hctx, hrest⟩ := h
            subst hv; subst hctx
            have hext1 := instance_new_extends ctx (RObj.arr [])
            have hwf1 := instance_new_wf ctx (RObj.arr []) hwf
            obtain ⟨hext2, hwf2⟩ := items_post n ih count.toNat
              (__ruby_instance_new ctx (RObj.arr [])).1
              (__ruby_instance_new ctx (RObj.arr [])).2 rest' ctx2 rest2 hwf1 hit
            refine ⟨ctxExtends_trans hext1 hext2, hwf2, ?_⟩
            intro id hid
            simp only [RVal.ref.injEq] at hid
            have hlen := instance_new_heap_len ctx (RObj.arr [])
            have := hext2.1
            rw [← hid, instance_new_fst]
            omega
      rw [if_neg h91] at h
      by_cases h123 : cc = 123
      -- '{'
      · rw [if_pos h123] at h
        cases hfx : ruby_unmarshal_next_fixnum tl with
        | none => rw [hfx] at h; simp at h
        | some r =>
          obtain ⟨count, rest'⟩ := r
          rw [hfx] at h
          simp only at h
          rw [← Prod.mk.eta (p := __ruby_instance_new ctx (RObj.hash []))] at h
          simp only at h
          cases hit : ruby_Hash_unmarshal_pairs n count.toNat
              (__ruby_instance_new ctx (RObj.hash [])).1
              (__ruby_instance_new ctx (RObj.hash [])).2 rest' with
          | none => rw [hit] at h; simp at h
          | some r2 =>
            obtain ⟨ctx2, rest2⟩ := r2
            rw [hit] at h
            simp only [Option.some.injEq, Prod.mk.injEq] at h
            obtain ⟨hv, hctx, hrest⟩ := h
            subst hv; subst hctx
            have hext1 := instance_new_extends ctx (RObj.hash [])
            have hwf1 := instance_new_wf ctx (RObj.hash []) hwf
            obtain ⟨hext2, hwf2⟩ := pairs_post n ih count.toNat
              (__ruby_instance_new ctx (RObj.hash [])).1
              (__ruby_instance_new ctx (RObj.hash [])).2 rest' ctx2 rest2 hwf1 hit
            refine ⟨ctxExtends_trans hext1 hext2, hwf2, ?_⟩
            intro id hid
            simp only [RVal.ref.injEq] at hid
            have hlen := instance_new_heap_len ctx (RObj.hash [])
            have := hext2.1
            rw [← hid, instance_new_fst]
            omega
      rw [if_neg h123] at h
      by_cases h111 : cc = 111
      -- 'o'
      · rw [if_pos h111] at h
        cases hoi : ruby_unmarshal_object_instance n ctx tl with
        | none => rw [hoi] at h; simp at h
        | some r =>
          obtain ⟨classname, ctx1, rest1⟩ := r
          rw [hoi] at h
          simp only at h
          rw [← Prod.mk.eta (p := __ruby_instance_new ctx1 (RObj.genericObject classname []))] at h
          simp only at h
          cases hvars : ruby_unmarshal_object_instance_vars n
              (RVal.ref (__ruby_instance_new ctx1 (RObj.genericObject classname [])).1)
              (__ruby_instance_new ctx1 (RObj.genericObject classname [])).2 rest1 with
          | none => rw [hvars] at h; simp at h
          | some r2 =>
            obtain ⟨ctx3, rest3⟩ := r2
            rw [hvars] at h
            simp only [Option.some.injEq, Prod.mk.injEq] at h
            obtain ⟨hv, hctx, hrest⟩ := h
            subst hv; subst hctx
            obtain ⟨hext1, hwf1⟩ := object_instance_post n ih ctx tl classname ctx1 rest1 hwf hoi
            have hext2 := instance_new_extends ctx1 (RObj.genericObject classname [])
            have hwf2 := instance_new_wf ctx1 (RObj.genericObject classname []) hwf1
            obtain ⟨hext3, hwf3⟩ := object_instance_vars_post n ih _ _ rest1 ctx3 rest3 hwf2 hvars
            refine ⟨ctxExtends_trans (ctxExtends_trans hext1 hext2) hext3, hwf3, ?_⟩
            intro id hid
            simp only [RVal.ref.injEq] at hid
            have hlen := instance_new_heap_len ctx1 (RObj.genericObject classname [])
            have := hext3.1
            rw [← hid, instance_new_fst]
            omega
      rw [if_neg h111] at h
      by_cases h117 : cc = 117
      -- 'u'
      · rw [if_pos h117] at h
        cases hoi : ruby_unmarshal_object_instance n ctx tl with
        | none => rw [hoi] at h; simp at h
        | some r =>
          obtain ⟨classname, ctx1, rest1⟩ := r
          rw [hoi] at h
          simp only at h
          rw [← Prod.mk.eta (p := __ruby_instance_new ctx1 (RObj.userDefined classname [] []))] at h
          simp only at h
          cases hbs : ruby_unmarshal_next_byteseq rest1 with
          | none => rw [hbs] at h; simp at h
          | some r2 =>
            obtain ⟨data, rest2⟩ := r2
            rw [hbs] at h
            simp only at h
            cases hsd : ruby_UserDefined_set_data
                (__ruby_instance_new ctx1 (RObj.userDefined classname [] [])).2
                (__ruby_instance_new ctx1 (RObj.userDefined classname [] [])).1 data with
            | none => rw [hsd] at h; simp at h
            | some ctx3 =>
              rw [hsd] at h
              simp only [Option.some.injEq, Prod.mk.injEq] at h
              obtain ⟨hv, hctx, hrest⟩ := h
              subst hv; subst hctx
              obtain ⟨hext1, hwf1⟩ := object_instance_post n ih ctx tl classname ctx1 rest1 hwf hoi
              have hext2 := instance_new_extends ctx1 (RObj.userDefined classname [] [])
              have hwf2 := instance_new_wf ctx1 (RObj.userDefined classname [] []) hwf1
              obtain ⟨hlen3, ho3, hs3⟩ := ruby_UserDefined_set_data_tables hsd
              have hext3 := ctxExtends_of_tables_eq hlen3 ho3 hs3
              have hwf3 := ctxWF_of_tables_eq hlen3 ho3 hs3 hwf2
              refine ⟨ctxExtends_trans (ctxExtends_trans hext1 hext2) hext3, hwf3, ?_⟩
              intro id hid
              simp only [RVal.ref.injEq] at hid
              have hlen := instance_new_heap_len ctx1 (RObj.userDefined classname [] [])
              rw [← hid, instance_new_fst]
              omega
      rw [if_neg h117] at h
      by_cases h85 : cc = 85
      -- 'U'
      · rw [if_pos h85] at h
        cases hoi : ruby_unmarshal_object_instance n ctx tl with
        | none => rw [hoi] at h; simp at h
        | some r =>
          obtain ⟨classname, ctx1, rest1⟩ := r
          rw [hoi] at h
          simp only at h
          rw [← Prod.mk.eta (p := __ruby_instance_new ctx1 (RObj.userMarshal classname none []))] at h
          simp only at h
          cases hdata : ruby_unmarshal_next_instance n
              (__ruby_instance_new ctx1 (RObj.userMarshal classname none [])).2 rest1 with
          | none => rw [hdata] at h; simp at h
          | some r2 =>
            obtain ⟨data, ctx3, rest2⟩ := r2
            rw [hdata] at h
            simp only at h
            cases hsd : ruby_UserMarshal_set_data ctx3
                (__ruby_instance_new ctx1 (RObj.userMarshal classname none [])).1 data with
            | none => rw [hsd] at h; simp at h
            | some ctx4 =>
              rw [hsd] at h
              simp only [Option.some.injEq, Prod.mk.injEq] at h
              obtain ⟨hv, hctx, hrest⟩ := h
              subst hv; subst hctx
              obtain ⟨hext1, hwf1⟩ := object_instance_post n ih ctx tl classname ctx1 rest1 hwf hoi
              have hext2 := instance_new_extends ctx1 (RObj.userMarshal classname none [])
              have hwf2 := instance_new_wf ctx1 (RObj.userMarshal classname none []) hwf1
              obtain ⟨hext3, hwf3, _⟩ := ih _ rest1 data ctx3 rest2 hwf2 hdata
              obtain ⟨hlen4, ho4, hs4⟩ := ruby_UserMarshal_set_data_tables hsd
              have hext4 := ctxExtends_of_tables_eq hlen4 ho4 hs4
              have hwf4 := ctxWF_of_tables_eq hlen4 ho4 hs4 hwf3
              refine ⟨ctxExtends_trans (ctxExtends_trans (ctxExtends_trans hext1 hext2) hext3)
                        hext4, hwf4, ?_⟩
              intro id hid
              simp only [RVal.ref.injEq] at hid
              have hlen := instance_new_heap_len ctx1 (RObj.userMarshal classname none [])
              have := hext3.1
              rw [← hid, instance_new_fst]
              omega
      rw [if_neg h85] at h
      by_cases h73 : cc = 73
      -- 'I'
      · rw [if_pos h73] at h
        cases hin : ruby_unmarshal_next_instance n ctx tl with
        | none => rw [hin] at h; simp at h
        | some r =>
          obtain ⟨inner, ctx1, rest1⟩ := r
          rw [hin] at h
          simp only at h
          cases hvars : ruby_unmarshal_object_instance_vars n inner ctx1 rest1 with
          | none => rw [hvars] at h; simp at h
          | some r2 =>
            obtain ⟨ctx2, rest2⟩ := r2
            rw [hvars] at h
            simp only [Option.some.injEq, Prod.mk.injEq] at h
            obtain ⟨hv, hctx, hrest⟩ := h
            subst hv; subst hctx
            obtain ⟨hext1, hwf1, hbound1⟩ := ih ctx tl inner ctx1 rest1 hwf hin
            obtain ⟨hext2, hwf2⟩ :=
              object_instance_vars_post n ih inner ctx1 rest1 ctx2 rest2 hwf1 hvars
            refine ⟨ctxExtends_trans hext1 hext2, hwf2, ?_⟩
            intro id hid
            have := hbound1 id hid
            have := hext2.1
            omega
      rw [if_neg h73] at h
      simp at h

/-! ## Claim C5 -/

/-- C5: every registrable value is appended to the object table at the
moment it is created, before its children are decoded.  Concretely:
decoding tag `[` (resp. `{`) registers the new array (hash) at the next
object index — its id is the heap bound at entry — and every object
registered afterwards (by the element decodes) sits strictly later in the
table with a strictly larger id; tag `"` appends exactly the new string;
tags `o`, `u`, `U` register the new object right after the class-name
value is decoded and before the payload/ivars, so objects created for the
class name sit before it and objects created by its children after it;
starting from an empty object table, the `[`-decoded container lands at
object-index 0; and the `I` wrapper returns the inner value unchanged and
allocates no object-table slot of its own — the slots added while its
instance variables are decoded never include the wrapped value's. -/
theorem C5_registration_before_children :
    (∀ fuel ctx input v ctx' rest, ctxWF ctx →
       ruby_unmarshal_next_instance fuel ctx (91 :: input) = some (v, ctx', rest) →
       ∃ d, v = RVal.ref ctx.heap.length ∧
         ctx'.objects = ctx.objects ++ ctx.heap.length :: d ∧
         ∀ j ∈ d, ctx.heap.length < j) ∧
    (∀ fuel ctx input v ctx' rest, ctxWF ctx →
       ruby_unmarshal_next_instance fuel ctx (123 :: input) = some (v, ctx', rest) →
       ∃ d, v = RVal.ref ctx.heap.length ∧
         ctx'.objects = ctx.objects ++ ctx.heap.length :: d ∧
         ∀ j ∈ d, ctx.heap.length < j) ∧
    (∀ fuel ctx input v ctx' rest, ctxWF ctx →
       ruby_unmarshal_next_instance fuel ctx (34 :: input) = some (v, ctx', rest) →
       v = RVal.ref ctx.heap.length ∧
       ctx'.objects = ctx.objects ++ [ctx.heap.length]) ∧
    (∀ cc, cc = 111 ∨ cc = 117 ∨ cc = 85 →
       ∀ fuel ctx input v ctx' rest, ctxWF ctx →
       ruby_unmarshal_next_instance fuel ctx (cc :: input) = some (v, ctx', rest) →
       ∃ id dpre dpost, v = RVal.ref id ∧
         ctx'.objects = ctx.objects ++ dpre ++ id :: dpost ∧
         (∀ j ∈ dpre, j < id) ∧ (∀ j ∈ dpost, id < j)) ∧
    (∀ fuel ctx input v ctx' rest, ctxWF ctx →
       ruby_unmarshal_next_instance (fuel + 1) ctx (73 :: input) = some (v, ctx', rest) →
       ∃ ctx1 mid d, ruby_unmarshal_next_instance fuel ctx input = some (v, ctx1, mid) ∧
         ctx'.objects = ctx1.objects ++ d ∧
         ∀ id, v = RVal.ref id → id ∉ d) ∧
    (∀ fuel ctx input v ctx' rest, ctx.objects = [] → ctxWF ctx →
       ruby_unmarshal_next_instance fuel ctx (91 :: input) = some (v, ctx', rest) →
       ctx'.objects.head? = some ctx.heap.length) := by
  have harr : ∀ fuel ctx input v ctx' rest, ctxWF ctx →
      ruby_unmarshal_next_instance fuel ctx (91 :: input) = some (v, ctx', rest) →
      ∃ d, v = RVal.ref ctx.heap.length ∧
        ctx'.objects = ctx.objects ++ ctx.heap.length :: d ∧
        ∀ j ∈ d, ctx.heap.length < j := by
    intro fuel ctx input v ctx' rest hwf h
    cases fuel with
    | zero => simp [ruby_unmarshal_next_instance] at h
    | succ n =>
      simp only [ruby_unmarshal_next_instance, ruby_io_nextc] at h
      norm_num at h
      cases hfx : ruby_unmarshal_next_fixnum input with
      | none => rw [hfx] at h; simp at h
      | some r =>
        obtain ⟨count, rest'⟩ := r
        rw [hfx] at h
        simp only at h
        rw [← Prod.mk.eta (p := __ruby_instance_new ctx (RObj.arr []))] at h
        simp only at h
        cases hit : ruby_Array_unmarshal_items n count.toNat
            (__ruby_instance_new ctx (RObj.arr [])).1
            (__ruby_instance_new ctx (RObj.arr [])).2 rest' with
        | none => rw [hit] at h; simp at h
        | some r2 =>
          obtain ⟨ctx2, rest2⟩ := r2
          rw [hit] at h
          simp only [Option.some.injEq, Prod.mk.injEq] at h
          obtain ⟨hv, hctx, hrest⟩ := h
          subst hv; subst hctx
          have hwf1 := instance_new_wf ctx (RObj.arr []) hwf
          obtain ⟨hext2, _⟩ := items_post n (next_instance_post n) count.toNat
            (__ruby_instance_new ctx (RObj.arr [])).1
            (__ruby_instance_new ctx (RObj.arr [])).2 rest' ctx2 rest2 hwf1 hit
          obtain ⟨_, ⟨d, hd, hdb⟩, _⟩ := hext2
          refine ⟨d, by rw [instance_new_fst], ?_, ?_⟩
          · rw [hd, instance_new_objects_of_object ctx (RObj.arr []) rfl]
            simp
          · intro j hj
            have := hdb j hj
            rw [instance_new_heap_len] at this
            omega
  refine ⟨harr, ?_, ?_, ?_, ?_, ?_⟩
  -- '{'
  · intro fuel ctx input v ctx' rest hwf h
    cases fuel with
    | zero => simp [ruby_unmarshal_next_instance] at h
    | succ n =>
      simp only [ruby_unmarshal_next_instance, ruby_io_nextc] at h
      norm_num at h
      cases hfx : ruby_unmarshal_next_fixnum input with
      | none => rw [hfx] at h; simp at h
      | some r =>
        obtain ⟨count, rest'⟩ := r
        rw [hfx] at h
        simp only at h
        rw [← Prod.mk.eta (p := __ruby_instance_new ctx (RObj.hash []))] at h
        simp only at h
        cases hit : ruby_Hash_unmarshal_pairs n count.toNat
            (__ruby_instance_new ctx (RObj.hash [])).1
            (__ruby_instance_new ctx (RObj.hash [])).2 rest' with
        | none => rw [hit] at h; simp at h
        | some r2 =>
          obtain ⟨ctx2, rest2⟩ := r2
          rw [hit] at h
          simp only [Option.some.injEq, Prod.mk.injEq] at h
          obtain ⟨hv, hctx, hrest⟩ := h
          subst hv; subst hctx
          have hwf1 := instance_new_wf ctx (RObj.hash []) hwf
          obtain ⟨hext2, _⟩ := pairs_post n (next_instance_post n) count.toNat
            (__ruby_instance_new ctx (RObj.hash [])).1
            (__ruby_instance_new ctx (RObj.hash [])).2 rest' ctx2 rest2 hwf1 hit
          obtain ⟨_, ⟨d, hd, hdb⟩, _⟩ := hext2
          refine ⟨d, by rw [instance_new_fst], ?_, ?_⟩
          · rw [hd, instance_new_objects_of_object ctx (RObj.hash []) rfl]
            simp
          · intro j hj
            have := hdb j hj
            rw [instance_new_heap_len] at this
            omega
  -- '"'
  · intro fuel ctx input v ctx' rest hwf h
    cases fuel with
    | zero => simp [ruby_unmarshal_next_instance] at h
    | succ n =>
      simp only [ruby_unmarshal_next_instance, ruby_io_nextc] at h
      norm_num at h
      cases hns : ruby_unmarshal_next_string input with
      | none => rw [hns] at h; simp at h
      | some r =>
        obtain ⟨value, rest'⟩ := r
        rw [hns] at h
        simp only at h
        rw [← Prod.mk.eta (p := __ruby_instance_new ctx (RObj.str value))] at h
        simp only [Option.some.injEq, Prod.mk.injEq] at h
        obtain ⟨hv, hctx, hrest⟩ := h
        subst hv; subst hctx
        exact ⟨by rw [instance_new_fst],
               by rw [instance_new_objects_of_object ctx (RObj.str value) rfl]⟩
  -- 'o', 'u', 'U'
  · intro cc hcc fuel ctx input v ctx' rest hwf h
    cases fuel with
    | zero =>
      rcases hcc with rfl | rfl | rfl <;> simp [ruby_unmarshal_next_instance] at h
    | succ n =>
      -- All three tags decode a class name, then register, then decode the
      -- payload; handle them uniformly by extracting the three phases.
      have hphases : ∃ classname ctx1 rest1 obj ctx3,
          ruby_unmarshal_object_instance n ctx input = some (classname, ctx1, rest1) ∧
          obj.registration = RegKind.object ∧
          v = RVal.ref (__ruby_instance_new ctx1 obj).1 ∧
          (__ruby_instance_new ctx1 obj).1 = ctx1.heap.length ∧
          ctxExtends (__ruby_instance_new ctx1 obj).2 ctx3 ∧ ctx' = ctx3 := by
        rcases hcc with rfl | rfl | rfl
        · -- 'o'
          simp only [ruby_unmarshal_next_instance, ruby_io_nextc] at h
          norm_num at h
          cases hoi : ruby_unmarshal_object_instance n ctx input with
          | none => rw [hoi] at h; simp at h
          | some r =>
            obtain ⟨classname, ctx1, rest1⟩ := r
            rw [hoi] at h
            simp only at h
            rw [← Prod.mk.eta
              (p := __ruby_instance_new ctx1 (RObj.genericObject classname []))] at h
            simp only at h
            cases hvars : ruby_unmarshal_object_instance_vars n
                (RVal.ref (__ruby_instance_new ctx1 (RObj.genericObject classname [])).1)
                (__ruby_instance_new ctx1 (RObj.genericObject classname [])).2 rest1 with
            | none => rw [hvars] at h; simp at h
            | some r2 =>
              obtain ⟨ctx3, rest3⟩ := r2
              rw [hvars] at h
              simp only [Option.some.injEq, Prod.mk.injEq] at h
              obtain ⟨hv, hctx, hrest⟩ := h
              have hwf1 := (object_instance_post n (next_instance_post n)
                ctx input classname ctx1 rest1 hwf hoi).2
              have hwf2 := instance_new_wf ctx1 (RObj.genericObject classname []) hwf1
              obtain ⟨hext3, _⟩ := object_instance_vars_post n (next_instance_post n)
                _ _ rest1 ctx3 rest3 hwf2 hvars
              exact ⟨classname, ctx1, rest1, RObj.genericObject classname [], ctx3, rfl, rfl,
                     hv.symm, instance_new_fst ctx1 _, hext3, hctx.symm⟩
        · -- 'u'
          simp only [ruby_unmarshal_next_instance, ruby_io_nextc] at h
          norm_num at h
          cases hoi : ruby_unmarshal_object_instance n ctx input with
          | none => rw [hoi] at h; simp at h
          | some r =>
            obtain ⟨classname, ctx1, rest1⟩ := r
            rw [hoi] at h
            simp only at h
            rw [← Prod.mk.eta
              (p := __ruby_instance_new ctx1 (RObj.userDefined classname [] []))] at h
            simp only at h
            cases hbs : ruby_unmarshal_next_byteseq rest1 with
            | none => rw [hbs] at h; simp at h
            | some r2 =>
              obtain ⟨data, rest2⟩ := r2
              rw [hbs] at h
              simp only at h
              cases hsd : ruby_UserDefined_set_data
                  (__ruby_instance_new ctx1 (RObj.userDefined classname [] [])).2
                  (__ruby_instance_new ctx1 (RObj.userDefined classname [] [])).1 data with
              | none => rw [hsd] at h; simp at h
              | some ctx3 =>
                rw [hsd] at h
                simp only [Option.some.injEq, Prod.mk.injEq] at h
                obtain ⟨hv, hctx, hrest⟩ := h
                obtain ⟨hlen3, ho3, hs3⟩ := ruby_UserDefined_set_data_tables hsd
                exact ⟨classname, ctx1, rest1, RObj.userDefined classname [] [], ctx3, rfl, rfl,
                       hv.symm, instance_new_fst ctx1 _,
                       ctxExtends_of_tables_eq hlen3 ho3 hs3, hctx.symm⟩
        · -- 'U'
          simp only [ruby_unmarshal_next_instance, ruby_io_nextc] at h
          norm_num at h
          cases hoi : ruby_unmarshal_object_instance n ctx input with
          | none => rw [hoi] at h; simp at h
          | some r =>
            obtain ⟨classname, ctx1, rest1⟩ := r
            rw [hoi] at h
            simp only at h
            rw [← Prod.mk.eta
              (p := __ruby_instance_new ctx1 (RObj.userMarshal classname none []))] at h
            simp only at h
            cases hdata : ruby_unmarshal_next_instance n
                (__ruby_instance_new ctx1 (RObj.userMarshal classname none [])).2 rest1 with
            | none => rw [hdata] at h; simp at h
            | some r2 =>
              obtain ⟨data, ctx3, rest2⟩ := r2
              rw [hdata] at h
              simp only at h
              cases hsd : ruby_UserMarshal_set_data ctx3
                  (__ruby_instance_new ctx1 (RObj.userMarshal classname none [])).1 data with
              | none => rw [hsd] at h; simp at h
              | some ctx4 =>
                rw [hsd] at h
                simp only [Option.some.injEq, Prod.mk.injEq] at h
                obtain ⟨hv, hctx, hrest⟩ := h
                have hwf1 := (object_instance_post n (next_instance_post n)
                  ctx input classname ctx1 rest1 hwf hoi).2
                have hwf2 := instance_new_wf ctx1 (RObj.userMarshal classname none []) hwf1
                obtain ⟨hext3, hwf3, _⟩ := next_instance_post n _ rest1 data ctx3 rest2 hwf2 hdata
                obtain ⟨hlen4, ho4, hs4⟩ := ruby_UserMarshal_set_data_tables hsd
                exact ⟨classname, ctx1, rest1, RObj.userMarshal classname none [], ctx4, rfl, rfl,
                       hv.symm, instance_new_fst ctx1 _,
                       ctxExtends_trans hext3 (ctxExtends_of_tables_eq hlen4 ho4 hs4), hctx.symm⟩
      obtain ⟨classname, ctx1, rest1, obj, ctx3, hoi, hreg, hv, hid, hext3, hctx⟩ := hphases
      obtain ⟨hext1, hwf1⟩ :=
        object_instance_post n (next_instance_post n) ctx input classname ctx1 rest1 hwf hoi
      obtain ⟨_, ⟨dpre, hdpre, _⟩, _⟩ := hext1
      obtain ⟨_, ⟨dpost, hdpost, hdpostb⟩, _⟩ := hext3
      refine ⟨ctx1.heap.length, dpre, dpost, by rw [hv, hid], ?_, ?_, ?_⟩
      · rw [hctx, hdpost, instance_new_objects_of_object ctx1 obj hreg, hdpre]
        simp
      · intro j hj
        have : j ∈ ctx1.objects := by rw [hdpre]; exact List.mem_append_right _ hj
        exact hwf1.1 j this
      · intro j hj
        have := hdpostb j hj
        rw [instance_new_heap_len] at this
        omega
  -- 'I'
  · intro fuel ctx input v ctx' rest hwf h
    simp only [ruby_unmarshal_next_instance, ruby_io_nextc] at h
    norm_num at h
    cases hin : ruby_unmarshal_next_instance fuel ctx input with
    | none => rw [hin] at h; simp at h
    | some r =>
      obtain ⟨inner, ctx1, rest1⟩ := r
      rw [hin] at h
      simp only at h
      cases hvars : ruby_unmarshal_object_instance_vars fuel inner ctx1 rest1 with
      | none => rw [hvars] at h; simp at h
      | some r2 =>
        obtain ⟨ctx2, rest2⟩ := r2
        rw [hvars] at h
        simp only [Option.some.injEq, Prod.mk.injEq] at h
        obtain ⟨hv, hctx, hrest⟩ := h
        subst hv; subst hctx
        obtain ⟨_, hwf1, hbound1⟩ := next_instance_post fuel ctx input inner ctx1 rest1 hwf hin
        obtain ⟨hext2, _⟩ := object_instance_vars_post fuel (next_instance_post fuel)
          inner ctx1 rest1 _ _ hwf1 hvars
        obtain ⟨_, ⟨d, hd, hdb⟩, _⟩ := hext2
        refine ⟨ctx1, rest1, d, rfl, hd, ?_⟩
        intro id hid hmem
        have h1 := hbound1 id hid
        have h2 := hdb id hmem
        omega
  -- first registrable value gets object-index 0
  · intro fuel ctx input v ctx' rest hempty hwf h
    obtain ⟨d, hv, hobj, _⟩ := harr fuel ctx input v ctx' rest hwf h
    rw [hobj, hempty]
    simp

/-- Witness for `C5_registration_before_children`: decoding the two bytes
`5B 00` (an empty array) from a fresh context registers the array at
object-index 0. -/
theorem C5_registration_before_children_witness :
    ctxWF RubyContext.empty ∧
    ruby_unmarshal_next_instance 1 RubyContext.empty (91 :: [0]) =
      some (RVal.ref 0, ⟨[RObj.arr []], [], [0], []⟩, []) ∧
    (∃ d, (RVal.ref 0 : RVal) = RVal.ref RubyContext.empty.heap.length ∧
      (⟨[RObj.arr []], [], [0], []⟩ : RubyContext).objects =
        RubyContext.empty.objects ++ RubyContext.empty.heap.length :: d ∧
      ∀ j ∈ d, RubyContext.empty.heap.length < j) := by
  have heq : ruby_unmarshal_next_instance 1 RubyContext.empty (91 :: [0]) =
      some (RVal.ref 0, ⟨[RObj.arr []], [], [0], []⟩, []) := by
    simp [ruby_unmarshal_next_instance, ruby_io_nextc, ruby_unmarshal_next_fixnum,
          __ruby_instance_new, RObj.registration, RubyContext.empty,
          ruby_Array_unmarshal_items]
  exact ⟨ctxWF_empty, heq,
    C5_registration_before_children.1 1 RubyContext.empty [0]
      (RVal.ref 0) ⟨[RObj.arr []], [], [0], []⟩ [] ctxWF_empty heq⟩

/-! ## Claim C6 -/

theorem uintCast_of_nonneg {i : Int} (h0 : 0 ≤ i) (hlt : i < 4294967296) :
    uintCast i = i.toNat := by
  unfold uintCast
  omega

theorem uintCast_of_neg {i : Int} (hlo : -256 < i) (hneg : i < 0) :
    4294967040 ≤ uintCast i := by
  unfold uintCast
  omega

/-- C6: decoding tag `;` (resp. `@`) followed by a fixnum `i` yields
exactly the `i`-th previously defined symbol (object) when
`0 ≤ i < table length`, and fails, producing no value, for every other
decodable `i` (negative or out of range).  The hypothesis on the table
lengths reflects the `unsigned int` index of `ruby_array_get`: a table
would need at least `2^32 - 256` entries before the conversion of a
decodable fixnum could wrap around. -/
theorem C6_reference_lookup_exact (ctx : RubyContext) (input : List Nat) (i : Int)
    (rest : List Nat)
    (hfx : ruby_unmarshal_next_fixnum input = some (i, rest))
    (hbytes : ∀ b ∈ input, b < 256)
    (hsym : ctx.symbols.length < 4294967040)
    (hobj : ctx.objects.length < 4294967040) :
    ((0 ≤ i ∧ i.toNat < ctx.symbols.length →
       ∃ id, ctx.symbols.get? i.toNat = some id ∧
         ruby_SymbolReference_unmarshal ctx input = some (RVal.ref id, ctx, rest)) ∧
     ((i < 0 ∨ (ctx.symbols.length : Int) ≤ i) →
       ruby_SymbolReference_unmarshal ctx input = none)) ∧
    ((0 ≤ i ∧ i.toNat < ctx.objects.length →
       ∃ id, ctx.objects.get? i.toNat = some id ∧
         ruby_ObjectReference_unmarshal ctx input = some (RVal.ref id, ctx, rest)) ∧
     ((i < 0 ∨ (ctx.objects.length : Int) ≤ i) →
       ruby_ObjectReference_unmarshal ctx input = none)) := by
  have hlow := next_fixnum_lower_bound input i rest hbytes hfx
  have hhigh := next_fixnum_upper_bound input i rest hbytes hfx
  have hsplit : ∀ arr : List Nat, arr.length < 4294967040 →
      ((0 ≤ i ∧ i.toNat < arr.length →
         ∃ id, arr.get? i.toNat = some id ∧ ruby_array_get arr (uintCast i) = some id) ∧
       ((i < 0 ∨ (arr.length : Int) ≤ i) → ruby_array_get arr (uintCast i) = none)) := by
    intro arr hlen
    constructor
    · rintro ⟨h0, hin⟩
      have hc : uintCast i = i.toNat := uintCast_of_nonneg h0 (by omega)
      rw [hc]
      refine ⟨arr.get ⟨i.toNat, hin⟩, List.get?_eq_get hin, ?_⟩
      unfold ruby_array_get
      rw [if_neg (by omega)]
      exact List.get?_eq_get hin
    · intro hcase
      unfold ruby_array_get
      rcases hcase with hneg | hge
      · have := uintCast_of_neg (by omega) hneg
        rw [if_pos (by omega)]
      · have h0 : 0 ≤ i := le_trans (by positivity) hge
        have hc : uintCast i = i.toNat := uintCast_of_nonneg h0 (by omega)
        rw [if_pos (by rw [hc]; omega)]
  constructor
  · obtain ⟨hin, hout⟩ := hsplit ctx.symbols hsym
    constructor
    · intro hc
      obtain ⟨id, hget, hag⟩ := hin hc
      refine ⟨id, hget, ?_⟩
      unfold ruby_SymbolReference_unmarshal
      rw [hfx]
      simp only [ruby_context_get_symbol]
      rw [hag]
    · intro hc
      unfold ruby_SymbolReference_unmarshal
      rw [hfx]
      simp only [ruby_context_get_symbol]
      rw [hout hc]
  · obtain ⟨hin, hout⟩ := hsplit ctx.objects hobj
    constructor
    · intro hc
      obtain ⟨id, hget, hag⟩ := hin hc
      refine ⟨id, hget, ?_⟩
      unfold ruby_ObjectReference_unmarshal
      rw [hfx]
      simp only [ruby_context_get_object]
      rw [hag]
    · intro hc
      unfold ruby_ObjectReference_unmarshal
      rw [hfx]
      simp only [ruby_context_get_object]
      rw [hout hc]

/-- Witness for `C6_reference_lookup_exact`: with one interned symbol and
no objects, `; 0` resolves to symbol 0 and `@ 0` fails. -/
theorem C6_reference_lookup_exact_witness :
    ruby_unmarshal_next_fixnum [0] = some (0, []) ∧
    (∃ id, ([0] : List Nat).get? ((0 : Int)).toNat = some id ∧
       ruby_SymbolReference_unmarshal ⟨[RObj.sym [97]], [0], [], []⟩ [0] =
         some (RVal.ref id, ⟨[RObj.sym [97]], [0], [], []⟩, [])) ∧
    ruby_ObjectReference_unmarshal ⟨[RObj.sym [97]], [0], [], []⟩ [0] = none := by
  have h := C6_reference_lookup_exact ⟨[RObj.sym [97]], [0], [], []⟩ [0] 0 []
    (by decide) (by decide) (by norm_num) (by norm_num)
  exact ⟨by decide, h.1.1 ⟨by decide, by decide⟩, h.2.2 (Or.inr (by norm_num))⟩

/-! ## Claim C9 -/

/-- C9: applying an instance variable to a decoded String succeeds exactly
when the key is the symbol `E` and the value is one of the two Bool
singletons (`ruby_String_set_var` then leaves the context untouched); and
a failing `set_ivar` aborts the decode of the enclosing `I`-wrapped
string: `I "hi" E=true` decodes, while the same document with a
non-boolean `E` value or with a different key fails and produces no
value. -/
theorem C9_string_ivar_E_only :
    (∀ ctx key value,
       (ruby_String_set_var ctx key value).isSome ↔
         (ruby_Symbol_get_name ctx key = some [69] ∧
          (value = RVal.rtrue ∨ value = RVal.rfalse))) ∧
    marshal48_unmarshal_io 3 [4, 8, 73, 34, 7, 104, 105, 6, 58, 6, 69, 84] =
      some (RVal.ref 0,
            ⟨[RObj.str [104, 105], RObj.sym [69]], [1], [0], []⟩, []) ∧
    marshal48_unmarshal_io 3 [4, 8, 73, 34, 7, 104, 105, 6, 58, 6, 69, 48] = none ∧
    marshal48_unmarshal_io 3 [4, 8, 73, 34, 7, 104, 105, 6, 58, 6, 70, 84] = none := by
  refine ⟨?_, ?_, ?_, ?_⟩
  · intro ctx key value
    unfold ruby_String_set_var
    cases hname : ruby_Symbol_get_name ctx key with
    | none => simp
    | some name =>
      by_cases hE : name = [69]
      · subst hE
        cases value <;> simp [ruby_Bool_check]
      · simp [hE]
  · simp [marshal48_unmarshal_io, marshal48_check_signature, ruby_unmarshal_next_instance,
      ruby_io_nextc, ruby_unmarshal_next_fixnum, ruby_unmarshal_next_string,
      ruby_unmarshal_next_byteseq, uintCast, cstring, __ruby_instance_new, RObj.registration,
      RubyContext.empty, ruby_unmarshal_object_instance_vars, ruby_unmarshal_ivars,
      ruby_instance_set_var, ruby_String_set_var, ruby_Symbol_get_name, heapGet,
      ruby_Bool_check]
  · simp [marshal48_unmarshal_io, marshal48_check_signature, ruby_unmarshal_next_instance,
      ruby_io_nextc, ruby_unmarshal_next_fixnum, ruby_unmarshal_next_string,
      ruby_unmarshal_next_byteseq, uintCast, cstring, __ruby_instance_new, RObj.registration,
      RubyContext.empty, ruby_unmarshal_object_instance_vars, ruby_unmarshal_ivars,
      ruby_instance_set_var, ruby_String_set_var, ruby_Symbol_get_name, heapGet,
      ruby_Bool_check]
  · simp [marshal48_unmarshal_io, marshal48_check_signature, ruby_unmarshal_next_instance,
      ruby_io_nextc, ruby_unmarshal_next_fixnum, ruby_unmarshal_next_string,
      ruby_unmarshal_next_byteseq, uintCast, cstring, __ruby_instance_new, RObj.registration,
      RubyContext.empty, ruby_unmarshal_object_instance_vars, ruby_unmarshal_ivars,
      ruby_instance_set_var, ruby_String_set_var, ruby_Symbol_get_name, heapGet,
      ruby_Bool_check]

/-- Witness for `C9_string_ivar_E_only`: the `E = true` ivar on a string
succeeds. -/
theorem C9_string_ivar_E_only_witness :
    (ruby_String_set_var ⟨[RObj.sym [69]], [0], [], []⟩ (RVal.ref 0) RVal.rtrue).isSome :=
  (C9_string_ivar_E_only.1 ⟨[RObj.sym [69]], [0], [], []⟩ (RVal.ref 0) RVal.rtrue).mpr
    ⟨by decide, Or.inl rfl⟩

/-! ## Claim C1 -/

/-- C1, code evaluation at the failing input: the first value emitted in a
context is assigned marshal-id 0 (`next_obj_id` starts at 0, and `-1`
marks an unassigned id).  On a later encounter of that value,
`__ruby_marshal_maybe_object_reference` — whose own comment promises
"true: we've seen this object before, I inserted a reference" — tests
`*obj_id_ret > 0`, so for the id-0 value it emits no `@` back-reference at
all, reports the value as new, and overwrites its id with a fresh one
(here 5 → 6).  A symbol in the same situation is handled correctly: the
symbol path tests `>= 0`, and the symbol with id 0 is emitted as the
back-reference `; 0`.  An object whose id is 1 is also back-referenced
correctly, showing the defect is exactly at id 0. -/
theorem C1_marshal_id_zero_not_back_referenced :
    __ruby_marshal_maybe_object_reference 0 5 = some (false, 5, 6, []) ∧
    __ruby_marshal_maybe_object_reference 1 5 = some (true, 1, 5, [64, 6]) ∧
    ruby_marshal_symbol [69] 0 5 = some ([59, 0], 0, 5) := by
  refine ⟨by decide, ?_, ?_⟩
  · simp [__ruby_marshal_maybe_object_reference, ruby_marshal_object_reference,
      ruby_marshal_fixnum]
  · simp [ruby_marshal_symbol, ruby_marshal_symbol_reference, ruby_marshal_fixnum]

/-! ## Claim C10 -/

/-- C10, code evaluation at the failing input: `ruby_marshal_string` keeps
the symbol id of `E` in a function-local `static int e_sym_id`, which
survives the marshal context.  Encoding the same string `"hi"` in two
fresh contexts of one process therefore writes different byte sequences:
the first context defines the symbol (`: E`), the second emits the
back-reference `; 0` into a stream that defines no symbol at all. -/
theorem C10_contexts_share_static_e_sym_id :
    marshal48_marshal_string_document (-1) [104, 105] =
      some ([4, 8, 73, 34, 7, 104, 105, 6, 58, 6, 69, 84], 0) ∧
    marshal48_marshal_string_document 0 [104, 105] =
      some ([4, 8, 73, 34, 7, 104, 105, 6, 59, 0, 84], 0) ∧
    ([4, 8, 73, 34, 7, 104, 105, 6, 58, 6, 69, 84] : List Nat) ≠
      [4, 8, 73, 34, 7, 104, 105, 6, 59, 0, 84] := by
  refine ⟨?_, ?_, by decide⟩
  · simp [marshal48_marshal_string_document, ruby_marshal_string,
      __ruby_marshal_maybe_object_reference, ruby_marshal_object_reference,
      ruby_marshal_symbol, ruby_marshal_symbol_reference, ruby_marshal_bytes,
      ruby_marshal_fixnum, ruby_marshal_true]
  · simp [marshal48_marshal_string_document, ruby_marshal_string,
      __ruby_marshal_maybe_object_reference, ruby_marshal_object_reference,
      ruby_marshal_symbol, ruby_marshal_symbol_reference, ruby_marshal_bytes,
      ruby_marshal_fixnum, ruby_marshal_true]

/-! ## Gemfile parser state preservation -/

theorem gemfile_parser_next_token_fields (st : gemfile_parser_state) :
    (gemfile_parser_next_token st).2.execute = st.execute ∧
    (gemfile_parser_next_token st).2.ignore_eol = st.ignore_eol ∧
    (gemfile_parser_next_token st).2.bundler_ctx = st.bundler_ctx := by
  simp [gemfile_parser_next_token]

theorem gemfile_parser_expect_string_fields {st : gemfile_parser_state}
    {s : String} {st' : gemfile_parser_state}
    (h : gemfile_parser_expect_string st = some (s, st')) :
    st'.execute = st.execute ∧ st'.ignore_eol = st.ignore_eol ∧
    st'.bundler_ctx = st.bundler_ctx := by
  unfold gemfile_parser_expect_string at h
  have := gemfile_parser_next_token_fields st
  split at h
  · rename_i heq
    simp only [Option.some.injEq, Prod.mk.injEq] at h
    obtain ⟨_, rfl⟩ := h
    rw [heq] at this
    exact this
  · simp at h

theorem gemfile_parser_expect_symbol_fields {st : gemfile_parser_state}
    {s : String} {st' : gemfile_parser_state}
    (h : gemfile_parser_expect_symbol st = some (s, st')) :
    st'.execute = st.execute ∧ st'.ignore_eol = st.ignore_eol ∧
    st'.bundler_ctx = st.bundler_ctx := by
  unfold gemfile_parser_expect_symbol at h
  have := gemfile_parser_next_token_fields st
  split at h
  · rename_i heq
    simp only [Option.some.injEq, Prod.mk.injEq] at h
    obtain ⟨_, rfl⟩ := h
    rw [heq] at this
    exact this
  · simp at h

theorem gemfile_parser_expect_eol_fields {st : gemfile_parser_state}
    {st' : gemfile_parser_state}
    (h : gemfile_parser_expect_eol st = some st') :
    st'.execute = st.execute ∧ st'.ignore_eol = st.ignore_eol ∧
    st'.bundler_ctx = st.bundler_ctx := by
  unfold gemfile_parser_expect_eol at h
  rw [← Prod.mk.eta (p := gemfile_parser_next_token st)] at h
  simp only at h
  split at h
  · simp only [Option.some.injEq] at h
    subst h
    exact gemfile_parser_next_token_fields st
  · simp at h

theorem gemfile_parser_process_expression_fields :
    ∀ fuel,
      (∀ st v st', gemfile_parser_process_expression fuel st = some (v, st') →
         st'.execute = st.execute ∧ st'.bundler_ctx = st.bundler_ctx) ∧
      (∀ st items token st', gemfile_parser_array_items fuel st = some (items, token, st') →
         st'.execute = st.execute ∧ st'.bundler_ctx = st.bundler_ctx) := by
  intro fuel
  induction fuel with
  | zero =>
    constructor
    · intro st v st' h
      simp [gemfile_parser_process_expression] at h
    · intro st items token st' h
      simp [gemfile_parser_array_items] at h
  | succ n ih =>
    have hnt := gemfile_parser_next_token_fields
    constructor
    · intro st v st' h
      simp only [gemfile_parser_process_expression] at h
      obtain ⟨ht1, ht2, ht3⟩ := hnt st
      cases htok : (gemfile_parser_next_token st).1 with
      | ident s =>
        rw [htok] at h
        simp only at h
        by_cases hf : s = "false"
        · rw [if_pos hf] at h
          simp only [Option.some.injEq, Prod.mk.injEq] at h
          obtain ⟨_, rfl⟩ := h
          exact ⟨ht1, ht3⟩
        rw [if_neg hf] at h
        by_cases hv : s = "true"
        · rw [if_pos hv] at h
          simp only [Option.some.injEq, Prod.mk.injEq] at h
          obtain ⟨_, rfl⟩ := h
          exact ⟨ht1, ht3⟩
        rw [if_neg hv] at h
        by_cases hr : s = "RUBY_VERSION"
        · rw [if_pos hr] at h
          cases hctx : (gemfile_parser_next_token st).2.bundler_ctx with
          | none => rw [hctx] at h; simp at h
          | some c =>
            rw [hctx] at h
            simp only [Option.some.injEq, Prod.mk.injEq] at h
            obtain ⟨_, rfl⟩ := h
            exact ⟨ht1, ht3⟩
        · rw [if_neg hr] at h
          simp at h
      | str s =>
        rw [htok] at h
        simp only [Option.some.injEq, Prod.mk.injEq] at h
        obtain ⟨_, rfl⟩ := h
        exact ⟨ht1, ht3⟩
      | sym s =>
        rw [htok] at h
        simp only [Option.some.injEq, Prod.mk.injEq] at h
        obtain ⟨_, rfl⟩ := h
        exact ⟨ht1, ht3⟩
      | lblocky =>
        rw [htok] at h
        simp only at h
        cases hai : gemfile_parser_array_items n
            { (gemfile_parser_next_token st).2 with
              ignore_eol := (gemfile_parser_next_token st).2.ignore_eol + 1 } with
        | none => rw [hai] at h; simp at h
        | some r =>
          obtain ⟨items, token, st2⟩ := r
          rw [hai] at h
          simp only at h
          split at h
          · simp only [Option.some.injEq, Prod.mk.injEq] at h
            obtain ⟨_, rfl⟩ := h
            have := (ih.2 _ items token st2 hai)
            simp only at this
            exact ⟨this.1.trans ht1, this.2.trans ht3⟩
          · simp at h
      | comma => rw [htok] at h; simp at h
      | operator s => rw [htok] at h; simp at h
      | rblocky => rw [htok] at h; simp at h
      | lbracket => rw [htok] at h; simp at h
      | rbracket => rw [htok] at h; simp at h
      | colon => rw [htok] at h; simp at h
      | percent raw =>
        rw [htok] at h
        simp only at h
        cases raw with
        | nil => simp at h
        | cons c rest =>
          simp only at h
          split at h
          · cases hlit : gemfile_parser_process_literal_percent_w rest with
            | none => rw [hlit] at h; simp at h
            | some r2 =>
              obtain ⟨items, leftover⟩ := r2
              rw [hlit] at h
              simp only at h
              split at h
              · simp only [Option.some.injEq, Prod.mk.injEq] at h
                obtain ⟨_, rfl⟩ := h
                exact ⟨ht1, ht3⟩
              · simp at h
          · simp at h
      | eol => rw [htok] at h; simp at h
      | eof => rw [htok] at h; simp at h
    · intro st items token st' h
      simp only [gemfile_parser_array_items] at h
      cases hex : gemfile_parser_process_expression n st with
      | none => rw [hex] at h; simp at h
      | some r =>
        obtain ⟨item, st1⟩ := r
        rw [hex] at h
        simp only at h
        obtain ⟨he1, he2⟩ := ih.1 st item st1 hex
        obtain ⟨ht1, _, ht3⟩ := gemfile_parser_next_token_fields st1
        split at h
        · cases hai : gemfile_parser_array_items n (gemfile_parser_next_token st1).2 with
          | none => rw [hai] at h; simp at h
          | some r2 =>
            obtain ⟨items2, token2, st2⟩ := r2
            rw [hai] at h
            simp only [Option.some.injEq, Prod.mk.injEq] at h
            obtain ⟨_, _, rfl⟩ := h
            obtain ⟨ha1, ha2⟩ := ih.2 _ items2 token2 st2 hai
            exact ⟨ha1.trans (ht1.trans he1), ha2.trans (ht3.trans he2)⟩
        · simp only [Option.some.injEq, Prod.mk.injEq] at h
          obtain ⟨_, _, rfl⟩ := h
          exact ⟨ht1.trans he1, ht3.trans he2⟩

theorem gemfile_parser_gem_args_fields :
    ∀ fuel,
      (∀ gem st gem' st', gemfile_parser_gem_args fuel gem st = some (gem', st') →
         gem'.ignore = gem.ignore ∧ st'.execute = st.execute ∧
         st'.bundler_ctx = st.bundler_ctx) ∧
      (∀ gem st gem' st', gemfile_parser_gem_args_next fuel gem st = some (gem', st') →
         gem'.ignore = gem.ignore ∧ st'.execute = st.execute ∧
         st'.bundler_ctx = st.bundler_ctx) := by
  intro fuel
  induction fuel with
  | zero =>
    constructor
    · intro gem st gem' st' h
      simp [gemfile_parser_gem_args] at h
    · intro gem st gem' st' h
      simp only [gemfile_parser_gem_args_next] at h
      obtain ⟨ht1, _, ht3⟩ := gemfile_parser_next_token_fields st
      split at h
      · simp [gemfile_parser_gem_args] at h
      · split at h
        · simp only [Option.some.injEq, Prod.mk.injEq] at h
          obtain ⟨rfl, rfl⟩ := h
          exact ⟨rfl, ht1, ht3⟩
        · simp at h
  | succ n ih =>
    have hargs : ∀ gem st gem' st',
        gemfile_parser_gem_args (n + 1) gem st = some (gem', st') →
        gem'.ignore = gem.ignore ∧ st'.execute = st.execute ∧
        st'.bundler_ctx = st.bundler_ctx := by
      intro gem st gem' st' h
      simp only [gemfile_parser_gem_args] at h
      obtain ⟨ht1, _, ht3⟩ := gemfile_parser_next_token_fields st
      cases htok : (gemfile_parser_next_token st).1 with
      | str s =>
        rw [htok] at h
        simp only at h
        obtain ⟨hg, hs1, hs2⟩ := ih.2 _ _ gem' st' h
        refine ⟨?_, hs1.trans ht1, hs2.trans ht3⟩
        rw [hg]
        unfold bundler_gem_add_dependency
        cases gem.name <;> rfl
      | sym s =>
        rw [htok] at h
        simp only at h
        obtain ⟨hu1, _, hu3⟩ := gemfile_parser_next_token_fields (gemfile_parser_next_token st).2
        cases htok2 : (gemfile_parser_next_token (gemfile_parser_next_token st).2).1 with
        | operator op =>
          rw [htok2] at h
          simp only at h
          split at h
          · cases hex : gemfile_parser_process_expression n
                (gemfile_parser_next_token (gemfile_parser_next_token st).2).2 with
            | none => rw [hex] at h; simp at h
            | some r =>
              obtain ⟨value, st3⟩ := r
              rw [hex] at h
              simp only at h
              obtain ⟨hg, hs1, hs2⟩ := ih.2 _ _ gem' st' h
              obtain ⟨he1, he2⟩ :=
                (gemfile_parser_process_expression_fields n).1 _ value st3 hex
              exact ⟨hg, hs1.trans (he1.trans (hu1.trans ht1)),
                     hs2.trans (he2.trans (hu3.trans ht3))⟩
          · simp at h
        | ident s2 => rw [htok2] at h; simp at h
        | sym s2 => rw [htok2] at h; simp at h
        | str s2 => rw [htok2] at h; simp at h
        | comma => rw [htok2] at h; simp at h
        | lblocky => rw [htok2] at h; simp at h
        | rblocky => rw [htok2] at h; simp at h
        | lbracket => rw [htok2] at h; simp at h
        | rbracket => rw [htok2] at h; simp at h
        | colon => rw [htok2] at h; simp at h
        | percent => rw [htok2] at h; simp at h
        | eol => rw [htok2] at h; simp at h
        | eof => rw [htok2] at h; simp at h
      | ident s =>
        rw [htok] at h
        simp only at h
        obtain ⟨hu1, _, hu3⟩ := gemfile_parser_next_token_fields (gemfile_parser_next_token st).2
        split at h
        · cases hex : gemfile_parser_process_expression n
              (gemfile_parser_next_token (gemfile_parser_next_token st).2).2 with
          | none => rw [hex] at h; simp at h
          | some r =>
            obtain ⟨value, st3⟩ := r
            rw [hex] at h
            simp only at h
            obtain ⟨hg, hs1, hs2⟩ := ih.2 _ _ gem' st' h
            obtain ⟨he1, he2⟩ :=
              (gemfile_parser_process_expression_fields n).1 _ value st3 hex
            exact ⟨hg, hs1.trans (he1.trans (hu1.trans ht1)),
                   hs2.trans (he2.trans (hu3.trans ht3))⟩
        · simp at h
      | comma => rw [htok] at h; simp at h
      | operator s => rw [htok] at h; simp at h
      | lblocky => rw [htok] at h; simp at h
      | rblocky => rw [htok] at h; simp at h
      | lbracket => rw [htok] at h; simp at h
      | rbracket => rw [htok] at h; simp at h
      | colon => rw [htok] at h; simp at h
      | percent => rw [htok] at h; simp at h
      | eol => rw [htok] at h; simp at h
      | eof => rw [htok] at h; simp at h
    refine ⟨hargs, ?_⟩
    intro gem st gem' st' h
    simp only [gemfile_parser_gem_args_next] at h
    obtain ⟨ht1, _, ht3⟩ := gemfile_parser_next_token_fields st
    split at h
    · obtain ⟨hg, hs1, hs2⟩ := hargs _ _ gem' st' h
      exact ⟨hg, hs1.trans ht1, hs2.trans ht3⟩
    · split at h
      · simp only [Option.some.injEq, Prod.mk.injEq] at h
        obtain ⟨rfl, rfl⟩ := h
        exact ⟨rfl, ht1, ht3⟩
      · simp at h

theorem bundler_gem_apply_context_ignore_mono {gem : bundler_gem}
    {ctx : bundler_context} (h : gem.ignore = true) :
    (bundler_gem_apply_context gem ctx).ignore = true := by
  dsimp only [bundler_gem_apply_context]
  repeat' split
  all_goals first | rfl | exact h

theorem gemfile_parser_group_names_fields : ∀ fuel acc st names token st',
    gemfile_parser_group_names fuel acc st = some (names, token, st') →
    st'.execute = st.execute ∧ st'.bundler_ctx = st.bundler_ctx := by
  intro fuel
  induction fuel with
  | zero =>
    intro acc st names token st' h
    simp [gemfile_parser_group_names] at h
  | succ n ih =>
    intro acc st names token st' h
    simp only [gemfile_parser_group_names] at h
    cases hes : gemfile_parser_expect_symbol st with
    | none => rw [hes] at h; simp at h
    | some r =>
      obtain ⟨symbol, st1⟩ := r
      rw [hes] at h
      simp only at h
      obtain ⟨h1, _, h3⟩ := gemfile_parser_expect_symbol_fields hes
      obtain ⟨ht1, _, ht3⟩ := gemfile_parser_next_token_fields st1
      split at h
      · obtain ⟨ha, hb⟩ := ih _ _ names token st' h
        exact ⟨ha.trans (ht1.trans h1), hb.trans (ht3.trans h3)⟩
      · simp only [Option.some.injEq, Prod.mk.injEq] at h
        obtain ⟨_, _, rfl⟩ := h
        exact ⟨ht1.trans h1, ht3.trans h3⟩

theorem gemfile_parser_process_source_frame {gemf : bundler_gemfile}
    {st : gemfile_parser_state} {gemf' : bundler_gemfile} {st' : gemfile_parser_state}
    (hexec : st.execute = false)
    (h : gemfile_parser_process_source gemf st = some (gemf', st')) :
    gemf' = gemf ∧ st'.execute = false := by
  unfold gemfile_parser_process_source at h
  cases hes : gemfile_parser_expect_string st with
  | none => rw [hes] at h; simp at h
  | some r =>
    obtain ⟨string, st1⟩ := r
    rw [hes] at h
    simp only at h
    obtain ⟨h1, _, _⟩ := gemfile_parser_expect_string_fields hes
    have hb : st1.execute = false := h1.trans hexec
    rw [if_neg (by rw [hb]; simp)] at h
    cases heol : gemfile_parser_expect_eol st1 with
    | none => rw [heol] at h; simp at h
    | some st2 =>
      rw [heol] at h
      simp only [Option.some.injEq, Prod.mk.injEq] at h
      obtain ⟨rfl, rfl⟩ := h
      exact ⟨rfl, (gemfile_parser_expect_eol_fields heol).1.trans hb⟩

theorem gemfile_parser_process_ruby_frame {fuel : Nat} {gemf : bundler_gemfile}
    {st : gemfile_parser_state} {gemf' : bundler_gemfile} {st' : gemfile_parser_state}
    (h : gemfile_parser_process_ruby fuel gemf st = some (gemf', st')) :
    gemf' = gemf ∧ st'.execute = st.execute := by
  unfold gemfile_parser_process_ruby at h
  cases hex : gemfile_parser_process_expression fuel st with
  | none => rw [hex] at h; simp at h
  | some r =>
    obtain ⟨value, st1⟩ := r
    rw [hex] at h
    simp only at h
    cases heol : gemfile_parser_expect_eol st1 with
    | none => rw [heol] at h; simp at h
    | some st2 =>
      rw [heol] at h
      simp only [Option.some.injEq, Prod.mk.injEq] at h
      obtain ⟨rfl, rfl⟩ := h
      exact ⟨rfl, (gemfile_parser_expect_eol_fields heol).1.trans
        ((gemfile_parser_process_expression_fields fuel).1 _ _ _ hex).1⟩

theorem gemfile_parser_process_gemspec_frame {gemf : bundler_gemfile}
    {st : gemfile_parser_state} {gemf' : bundler_gemfile} {st' : gemfile_parser_state}
    (h : gemfile_parser_process_gemspec gemf st = some (gemf', st')) :
    gemf' = gemf ∧ st'.execute = st.execute := by
  unfold gemfile_parser_process_gemspec at h
  cases heol : gemfile_parser_expect_eol st with
  | none => rw [heol] at h; simp at h
  | some st1 =>
    rw [heol] at h
    simp only [Option.some.injEq, Prod.mk.injEq] at h
    obtain ⟨rfl, rfl⟩ := h
    exact ⟨rfl, (gemfile_parser_expect_eol_fields heol).1⟩

theorem gemfile_parser_process_gem_frame {fuel : Nat} {gemf : bundler_gemfile}
    {st : gemfile_parser_state} {gemf' : bundler_gemfile} {st' : gemfile_parser_state}
    (hexec : st.execute = false)
    (h : gemfile_parser_process_gem fuel gemf st = some (gemf', st')) :
    gemf'.source = gemf.source ∧
    (∃ g, gemf'.gems = gemf.gems ++ [g] ∧ g.ignore = true) ∧
    st'.execute = false := by
  unfold gemfile_parser_process_gem at h
  simp only at h
  cases hga : gemfile_parser_gem_args fuel
      { name := none, dependency := [], ivars := [], ignore := !st.execute } st with
  | none => rw [hga] at h; simp at h
  | some r =>
    obtain ⟨gem1, st1⟩ := r
    rw [hga] at h
    simp only at h
    obtain ⟨hig, hs1, _⟩ := (gemfile_parser_gem_args_fields fuel).1 _ _ _ _ hga
    have hig1 : gem1.ignore = true := by rw [hig, hexec]; rfl
    cases hc : st1.bundler_ctx with
    | none =>
      rw [hc] at h
      simp only [Option.some.injEq, Prod.mk.injEq] at h
      obtain ⟨h4, rfl⟩ := h
      rw [← h4]
      exact ⟨rfl, ⟨gem1, rfl, hig1⟩, hs1.trans hexec⟩
    | some c =>
      rw [hc] at h
      simp only [Option.some.injEq, Prod.mk.injEq] at h
      obtain ⟨h4, rfl⟩ := h
      rw [← h4]
      exact ⟨rfl, ⟨bundler_gem_apply_context gem1 c, rfl,
        bundler_gem_apply_context_ignore_mono hig1⟩, hs1.trans hexec⟩

theorem gemfile_parser_group_frame_aux (fuel : Nat)
    (hcb : ∀ toplevel gemf st gemf' st', st.execute = false →
       gemfile_parser_process_code_block fuel [] toplevel gemf st = some (gemf', st') →
       gemf'.source = gemf.source ∧
       (∃ d, gemf'.gems = gemf.gems ++ d ∧ ∀ g ∈ d, g.ignore = true) ∧
       st'.execute = false) :
    ∀ gemf st gemf' st', st.execute = false →
      gemfile_parser_process_group fuel [] gemf st = some (gemf', st') →
      gemf'.source = gemf.source ∧
      (∃ d, gemf'.gems = gemf.gems ++ d ∧ ∀ g ∈ d, g.ignore = true) ∧
      st'.execute = false := by
  intro gemf st gemf' st' hexec h
  simp only [gemfile_parser_process_group] at h
  cases hgn : gemfile_parser_group_names fuel [] st with
  | none => rw [hgn] at h; simp at h
  | some r =>
    obtain ⟨names, token, st0⟩ := r
    rw [hgn] at h
    simp only at h
    obtain ⟨hg1, hg2⟩ := gemfile_parser_group_names_fields fuel [] st names token st0 hgn
    have hex0 : st0.execute = false := hg1.trans hexec
    split at h
    · simp only [Option.some.injEq, Prod.mk.injEq] at h
      obtain ⟨rfl, rfl⟩ := h
      exact ⟨rfl, ⟨[], by simp, by simp⟩, hex0⟩
    · split at h
      · cases heol : gemfile_parser_expect_eol st0 with
        | none => rw [heol] at h; simp at h
        | some st1 =>
          rw [heol] at h
          simp only at h
          have hex1 : st1.execute = false := (gemfile_parser_expect_eol_fields heol).1.trans hex0
          rw [if_pos hex1] at h
          simp only at h
          cases hcbr : gemfile_parser_process_code_block fuel [] false gemf st1 with
          | none => rw [hcbr] at h; simp at h
          | some r2 =>
            obtain ⟨gemf2, st3⟩ := r2
            rw [hcbr] at h
            simp only [Option.some.injEq, Prod.mk.injEq] at h
            obtain ⟨rfl, rfl⟩ := h
            obtain ⟨hsrc, hgems, _⟩ := hcb false gemf st1 gemf2 st3 hex1 hcbr
            exact ⟨hsrc, hgems, hex1⟩
      · simp at h

theorem gemfile_parser_platform_frame_aux (fuel : Nat)
    (hcb : ∀ toplevel gemf st gemf' st', st.execute = false →
       gemfile_parser_process_code_block fuel [] toplevel gemf st = some (gemf', st') →
       gemf'.source = gemf.source ∧
       (∃ d, gemf'.gems = gemf.gems ++ d ∧ ∀ g ∈ d, g.ignore = true) ∧
       st'.execute = false) :
    ∀ gemf st gemf' st', st.execute = false →
      gemfile_parser_process_platform fuel [] gemf st = some (gemf', st') →
      gemf'.source = gemf.source ∧
      (∃ d, gemf'.gems = gemf.gems ++ d ∧ ∀ g ∈ d, g.ignore = true) ∧
      st'.execute = false := by
  intro gemf st gemf' st' hexec h
  simp only [gemfile_parser_process_platform] at h
  cases hgn : gemfile_parser_group_names fuel [] st with
  | none => rw [hgn] at h; simp at h
  | some r =>
    obtain ⟨names, token, st0⟩ := r
    rw [hgn] at h
    simp only at h
    obtain ⟨hg1, hg2⟩ := gemfile_parser_group_names_fields fuel [] st names token st0 hgn
    have hex0 : st0.execute = false := hg1.trans hexec
    split at h
    · simp only [Option.some.injEq, Prod.mk.injEq] at h
      obtain ⟨rfl, rfl⟩ := h
      exact ⟨rfl, ⟨[], by simp, by simp⟩, hex0⟩
    · split at h
      · cases heol : gemfile_parser_expect_eol st0 with
        | none => rw [heol] at h; simp at h
        | some st1 =>
          rw [heol] at h
          simp only at h
          have hex1 : st1.execute = false := (gemfile_parser_expect_eol_fields heol).1.trans hex0
          rw [if_pos hex1] at h
          simp only at h
          cases hcbr : gemfile_parser_process_code_block fuel [] false gemf st1 with
          | none => rw [hcbr] at h; simp at h
          | some r2 =>
            obtain ⟨gemf2, st3⟩ := r2
            rw [hcbr] at h
            simp only [Option.some.injEq, Prod.mk.injEq] at h
            obtain ⟨rfl, rfl⟩ := h
            obtain ⟨hsrc, hgems, _⟩ := hcb false gemf st1 gemf2 st3 hex1 hcbr
            exact ⟨hsrc, hgems, hex1⟩
      · simp at h

theorem gemfile_parser_statement_frame_aux (fuel : Nat)
    (hgrp : ∀ gemf st gemf' st', st.execute = false →
       gemfile_parser_process_group fuel [] gemf st = some (gemf', st') →
       gemf'.source = gemf.source ∧
       (∃ d, gemf'.gems = gemf.gems ++ d ∧ ∀ g ∈ d, g.ignore = true) ∧
       st'.execute = false)
    (hplat : ∀ gemf st gemf' st', st.execute = false →
       gemfile_parser_process_platform fuel [] gemf st = some (gemf', st') →
       gemf'.source = gemf.source ∧
       (∃ d, gemf'.gems = gemf.gems ++ d ∧ ∀ g ∈ d, g.ignore = true) ∧
       st'.execute = false) :
    ∀ identifier gemf st gemf' st', st.execute = false →
      gemfile_parser_process_statement fuel [] gemf st identifier = some (gemf', st') →
      gemf'.source = gemf.source ∧
      (∃ d, gemf'.gems = gemf.gems ++ d ∧ ∀ g ∈ d, g.ignore = true) ∧
      st'.execute = false := by
  intro identifier gemf st gemf' st' hexec h
  simp only [gemfile_parser_process_statement] at h
  by_cases h1 : identifier = "source"
  · rw [if_pos h1] at h
    obtain ⟨rfl, he⟩ := gemfile_parser_process_source_frame hexec h
    exact ⟨rfl, ⟨[], by simp, by simp⟩, he⟩
  rw [if_neg h1] at h
  by_cases h2 : identifier = "ruby"
  · rw [if_pos h2] at h
    obtain ⟨rfl, he⟩ := gemfile_parser_process_ruby_frame h
    exact ⟨rfl, ⟨[], by simp, by simp⟩, he.trans hexec⟩
  rw [if_neg h2] at h
  by_cases h3 : identifier = "gemspec"
  · rw [if_pos h3] at h
    obtain ⟨rfl, he⟩ := gemfile_parser_process_gemspec_frame h
    exact ⟨rfl, ⟨[], by simp, by simp⟩, he.trans hexec⟩
  rw [if_neg h3] at h
  by_cases h4 : identifier = "group"
  · rw [if_pos h4] at h
    exact hgrp gemf st gemf' st' hexec h
  rw [if_neg h4] at h
  by_cases h5 : identifier = "platforms" ∨ identifier = "platform"
  · rw [if_pos h5] at h
    exact hplat gemf st gemf' st' hexec h
  rw [if_neg h5] at h
  by_cases h6 : identifier = "gem"
  · rw [if_pos h6] at h
    obtain ⟨hsrc, ⟨g, hg, hgi⟩, he⟩ := gemfile_parser_process_gem_frame hexec h
    exact ⟨hsrc, ⟨[g], hg, by simpa using hgi⟩, he⟩
  rw [if_neg h6] at h
  by_cases h7 : identifier = "eval_gemfile"
  · rw [if_pos h7] at h
    simp only [gemfile_parser_process_include] at h
    cases hes : gemfile_parser_expect_string st with
    | none => rw [hes] at h; simp at h
    | some r =>
      obtain ⟨string, st1⟩ := r
      rw [hes] at h
      simp at h
  rw [if_neg h7] at h
  simp at h

/-- Frame property of the non-executing statement machine: with no
readable include files, a code block run with the execute flag cleared
never touches the Gemfile's source and only ever appends gems whose
ignore flag is set. -/
theorem gemfile_parser_code_block_frame : ∀ fuel toplevel gemf st gemf' st',
    st.execute = false →
    gemfile_parser_process_code_block fuel [] toplevel gemf st = some (gemf', st') →
    gemf'.source = gemf.source ∧
    (∃ d, gemf'.gems = gemf.gems ++ d ∧ ∀ g ∈ d, g.ignore = true) ∧
    st'.execute = false := by
  intro fuel
  induction fuel with
  | zero =>
    intro toplevel gemf st gemf' st' hexec h
    simp [gemfile_parser_process_code_block] at h
  | succ n ih =>
    have hgrp := gemfile_parser_group_frame_aux n
      (fun a b c d e hf hh => ih a b c d e hf hh)
    have hplat := gemfile_parser_platform_frame_aux n
      (fun a b c d e hf hh => ih a b c d e hf hh)
    have hstmt := gemfile_parser_statement_frame_aux n hgrp hplat
    intro toplevel gemf st gemf' st' hexec h
    simp only [gemfile_parser_process_code_block] at h
    obtain ⟨ht1, _, _⟩ := gemfile_parser_next_token_fields st
    cases htok : (gemfile_parser_next_token st).1 with
    | eof =>
      rw [htok] at h
      simp only at h
      split at h
      · simp only [Option.some.injEq, Prod.mk.injEq] at h
        obtain ⟨rfl, rfl⟩ := h
        exact ⟨rfl, ⟨[], by simp, by simp⟩, ht1.trans hexec⟩
      · simp at h
    | ident identifier =>
      rw [htok] at h
      simp only at h
      split at h
      · cases heol : gemfile_parser_expect_eol (gemfile_parser_next_token st).2 with
        | none => rw [heol] at h; simp at h
        | some st1 =>
          rw [heol] at h
          simp only [Option.some.injEq, Prod.mk.injEq] at h
          obtain ⟨rfl, rfl⟩ := h
          exact ⟨rfl, ⟨[], by simp, by simp⟩,
            (gemfile_parser_expect_eol_fields heol).1.trans (ht1.trans hexec)⟩
      · split at h
        · simp at h
        · cases hst : gemfile_parser_process_statement n [] gemf
              (gemfile_parser_next_token st).2 identifier with
          | none => rw [hst] at h; simp at h
          | some r =>
            obtain ⟨gemf1, st1⟩ := r
            rw [hst] at h
            simp only at h
            obtain ⟨hsrc1, ⟨d1, hd1, hd1i⟩, hex1⟩ :=
              hstmt identifier gemf _ gemf1 st1 (ht1.trans hexec) hst
            obtain ⟨hsrc2, ⟨d2, hd2, hd2i⟩, hex2⟩ :=
              ih toplevel gemf1 st1 gemf' st' hex1 h
            refine ⟨hsrc2.trans hsrc1, ⟨d1 ++ d2, ?_, ?_⟩, hex2⟩
            · rw [hd2, hd1, List.append_assoc]
            · intro g hg
              rcases List.mem_append.mp hg with hg | hg
              · exact hd1i g hg
              · exact hd2i g hg
    | sym s => rw [htok] at h; simp at h
    | str s => rw [htok] at h; simp at h
    | comma => rw [htok] at h; simp at h
    | operator s => rw [htok] at h; simp at h
    | lblocky => rw [htok] at h; simp at h
    | rblocky => rw [htok] at h; simp at h
    | lbracket => rw [htok] at h; simp at h
    | rbracket => rw [htok] at h; simp at h
    | colon => rw [htok] at h; simp at h
    | percent => rw [htok] at h; simp at h
    | eol => rw [htok] at h; simp at h

/-- C8: counterexample.  A `group :test do gem "rspec" ... end` block whose
group name does not match the environment (enabled groups are just
`default`) is processed with the execute flag cleared, yet the resulting
Gemfile is NOT unchanged: a gem entry for `rspec` (flagged ignore) has
been appended to the gem sequence. -/
theorem C8_counterexample :
    gemfile_parser_process_group 10 [] bundler_gemfile.empty
      { tokens := [GToken.sym "test", GToken.ident "do", GToken.eol,
          GToken.ident "gem", GToken.str "rspec", GToken.eol,
          GToken.ident "end", GToken.eol],
        ignore_eol := 0, execute := true,
        bundler_ctx := some (bundler_context_new "2.5.0" "25") } =
      some ({ source := none,
              gems := [{ name := some "rspec", dependency := [], ivars := [],
                         ignore := true }] },
            { tokens := [], ignore_eol := 0, execute := true,
              bundler_ctx := some (bundler_context_new "2.5.0" "25") }) ∧
    bundler_context_match_group (bundler_context_new "2.5.0" "25") ["test"] = false ∧
    [({ name := some "rspec", dependency := [], ivars := [],
        ignore := true } : bundler_gem)] ≠ ([] : List bundler_gem) := by
  refine ⟨by simp [gemfile_parser_process_group, gemfile_parser_group_names,
      gemfile_parser_expect_symbol, gemfile_parser_next_token,
      gemfile_parser_next_token_aux, gemfile_parser_expect_eol,
      __bundler_gemfile_token_is_eol, gemfile_parser_process_code_block,
      gemfile_parser_process_statement, gemfile_parser_process_gem,
      gemfile_parser_gem_args, gemfile_parser_gem_args_next,
      bundler_gem_add_dependency, bundler_gem_apply_context,
      bundler_gem_get_strings, bundler_gem_get_ivar,
      bundler_context_match_platform, bundler_context_match_group,
      string_array_contains, bundler_context_new, bundler_gemfile.empty], by decide, by simp⟩

/-- C8 (amended): while the execute flag is false, a `source` statement
leaves the Gemfile untouched and a `gem` statement still appends exactly
one entry to the gem sequence, carrying `ignore = true`; when no include
file is readable (an empty filesystem), a whole non-executing code block
therefore preserves the source and extends the gem sequence only by
entries flagged `ignore = true`.  But `eval_gemfile` is dispatched
without an execute-flag guard and evaluates the included file on the
same Gemfile with the execute flag reset to true, so a non-executing
block containing a successful `eval_gemfile` CAN set the source and
append non-ignored entries — shown by the concrete run in the last
conjunct, a non-matching `group :test do` block whose `eval_gemfile`
sets the source and appends a gem with `ignore = false`. -/
theorem C8_nonexecuting_block_gem_entries :
    (∀ gemf st gemf' st', st.execute = false →
       gemfile_parser_process_source gemf st = some (gemf', st') →
       gemf' = gemf) ∧
    (∀ fuel gemf st gemf' st', st.execute = false →
       gemfile_parser_process_gem fuel gemf st = some (gemf', st') →
       gemf'.source = gemf.source ∧
       ∃ g, gemf'.gems = gemf.gems ++ [g] ∧ g.ignore = true) ∧
    (∀ fuel toplevel gemf st gemf' st', st.execute = false →
       gemfile_parser_process_code_block fuel [] toplevel gemf st = some (gemf', st') →
       gemf'.source = gemf.source ∧
       ∃ d, gemf'.gems = gemf.gems ++ d ∧ ∀ g ∈ d, g.ignore = true) ∧
    gemfile_parser_process_group 10
      [("included", [GToken.ident "source", GToken.str "https://rubygems.org", GToken.eol,
         GToken.ident "gem", GToken.str "rails", GToken.eol])]
      bundler_gemfile.empty
      { tokens := [GToken.sym "test", GToken.ident "do", GToken.eol,
          GToken.ident "eval_gemfile", GToken.str "included", GToken.eol,
          GToken.ident "end", GToken.eol],
        ignore_eol := 0, execute := true,
        bundler_ctx := some (bundler_context.mk "2.5.0" ["ruby"] ["default"] []) } =
      some ({ source := some "https://rubygems.org",
              gems := [{ name := some "rails", dependency := [], ivars := [],
                         ignore := false }] },
            { tokens := [], ignore_eol := 0, execute := true,
              bundler_ctx := some (bundler_context.mk "2.5.0" ["ruby"] ["default"] []) }) := by
  refine ⟨?_, ?_, ?_, ?_⟩
  · intro gemf st gemf' st' hexec h
    exact (gemfile_parser_process_source_frame hexec h).1
  · intro fuel gemf st gemf' st' hexec h
    obtain ⟨h1, h2, _⟩ := gemfile_parser_process_gem_frame hexec h
    exact ⟨h1, h2⟩
  · intro fuel toplevel gemf st gemf' st' hexec h
    obtain ⟨h1, h2, _⟩ := gemfile_parser_code_block_frame fuel toplevel gemf st gemf' st' hexec h
    exact ⟨h1, h2⟩
  · simp [gemfile_parser_process_group, gemfile_parser_group_names,
      gemfile_parser_expect_symbol, gemfile_parser_expect_string,
      gemfile_parser_next_token, gemfile_parser_next_token_aux,
      gemfile_parser_expect_eol, __bundler_gemfile_token_is_eol,
      gemfile_parser_process_code_block, gemfile_parser_process_statement,
      gemfile_parser_process_include, gemfile_parser_process_source,
      gemfile_parser_process_gem, gemfile_parser_gem_args,
      gemfile_parser_gem_args_next, bundler_gem_add_dependency,
      bundler_gem_apply_context, bundler_gem_get_strings, bundler_gem_get_ivar,
      bundler_context_match_platform, bundler_context_match_group,
      string_array_contains, bundler_gemfile.empty, List.lookup]

theorem C8_nonexecuting_block_gem_entries_witness :
    (bundler_gemfile.mk none [bundler_gem.mk (some "rspec") [] [] true]).source =
      bundler_gemfile.empty.source ∧
    ∃ g, (bundler_gemfile.mk none [bundler_gem.mk (some "rspec") [] [] true]).gems =
      bundler_gemfile.empty.gems ++ [g] ∧ g.ignore = true :=
  C8_nonexecuting_block_gem_entries.2.1 5 bundler_gemfile.empty
    { tokens := [GToken.str "rspec", GToken.eol], ignore_eol := 0,
      execute := false, bundler_ctx := none }
    (bundler_gemfile.mk none [bundler_gem.mk (some "rspec") [] [] true])
    { tokens := [], ignore_eol := 0, execute := false, bundler_ctx := none }
    rfl (by simp [gemfile_parser_process_gem, gemfile_parser_gem_args,
      gemfile_parser_gem_args_next, gemfile_parser_next_token,
      gemfile_parser_next_token_aux, __bundler_gemfile_token_is_eol,
      bundler_gem_add_dependency, bundler_gemfile.empty])

/-- C4: counterexample.  Against a context with `default` both enabled and
disabled, an empty group list matches while `[default]` does not, so the
two are not interchangeable; and a gem declared inside `group :test do`
with `test` enabled and not disabled still comes out with `ignore = true`,
because `bundler_gem_apply_context` re-filters the gem against its own
(empty, hence `[default]`) group list, and `default` is not in that
context's enabled groups. -/
theorem C4_counterexample :
    bundler_context_match_group
      (bundler_context.mk "2.5.0" ["ruby"] ["default"] ["default"]) [] = true ∧
    bundler_context_match_group
      (bundler_context.mk "2.5.0" ["ruby"] ["default"] ["default"]) ["default"] = false ∧
    bundler_context_match_group
      (bundler_context.mk "2.5.0" ["ruby"] ["test"] []) ["test"] = true ∧
    gemfile_parser_process_group 10 [] bundler_gemfile.empty
      { tokens := [GToken.sym "test", GToken.ident "do", GToken.eol,
          GToken.ident "gem", GToken.str "rspec", GToken.eol,
          GToken.ident "end", GToken.eol],
        ignore_eol := 0, execute := true,
        bundler_ctx := some (bundler_context.mk "2.5.0" ["ruby"] ["test"] []) } =
      some ({ source := none,
              gems := [{ name := some "rspec", dependency := [], ivars := [],
                         ignore := true }] },
            { tokens := [], ignore_eol := 0, execute := true,
              bundler_ctx := some (bundler_context.mk "2.5.0" ["ruby"] ["test"] []) }) := by
  refine ⟨by decide, by decide, by decide, ?_⟩
  simp [gemfile_parser_process_group, gemfile_parser_group_names,
    gemfile_parser_expect_symbol, gemfile_parser_next_token,
    gemfile_parser_next_token_aux, gemfile_parser_expect_eol,
    __bundler_gemfile_token_is_eol, gemfile_parser_process_code_block,
    gemfile_parser_process_statement, gemfile_parser_process_gem,
    gemfile_parser_gem_args, gemfile_parser_gem_args_next,
    bundler_gem_add_dependency, bundler_gem_apply_context,
    bundler_gem_get_strings, bundler_gem_get_ivar,
    bundler_context_match_platform, bundler_context_match_group,
    string_array_contains, bundler_gemfile.empty]

/-- C4 (amended): for a NON-empty group list the match rule is as claimed
(some listed name enabled and none disabled); the empty list behaves as
`[default]` only when `default` is not among the disabled groups; and a
gem declared inside `group :X do ... end` gets `ignore = true` iff `X`
fails the group filter OR the gem is re-filtered out by its own implicit
`[default]` group list in `bundler_gem_apply_context`. -/
theorem C4_group_match_rule_amended :
    (∀ (ctx : bundler_context) (names : List String), names ≠ [] →
       (bundler_context_match_group ctx names = true ↔
         ((∃ n ∈ names, n ∈ ctx.with_groups) ∧ ∀ n ∈ names, n ∉ ctx.without_groups))) ∧
    (∀ ctx : bundler_context, "default" ∉ ctx.without_groups →
       bundler_context_match_group ctx [] = bundler_context_match_group ctx ["default"]) ∧
    (∀ (ctx : bundler_context) (gname gem_name : String),
       gemfile_parser_process_group 10 [] bundler_gemfile.empty
         { tokens := [GToken.sym gname, GToken.ident "do", GToken.eol,
             GToken.ident "gem", GToken.str gem_name, GToken.eol,
             GToken.ident "end", GToken.eol],
           ignore_eol := 0, execute := true, bundler_ctx := some ctx } =
         some ({ source := none,
                 gems := [{ name := some gem_name, dependency := [], ivars := [],
                            ignore := (!bundler_context_match_group ctx [gname] ||
                              !bundler_context_match_group ctx ["default"]) }] },
               { tokens := [], ignore_eol := 0, execute := true,
                 bundler_ctx := some ctx })) := by
  refine ⟨?_, ?_, ?_⟩
  · intro ctx names hne
    cases names with
    | nil => exact absurd rfl hne
    | cons a l =>
      simp [bundler_context_match_group, string_array_contains, List.any_eq_true]
      tauto
  · intro ctx hd
    simp [bundler_context_match_group, string_array_contains, hd]
  · intro ctx gname gem_name
    cases h1 : bundler_context_match_group ctx [gname] with
    | true =>
      cases h2 : bundler_context_match_group ctx ["default"] with
      | true =>
        simp [gemfile_parser_process_group, gemfile_parser_group_names,
        gemfile_parser_expect_symbol, gemfile_parser_next_token,
        gemfile_parser_next_token_aux, gemfile_parser_expect_eol,
        __bundler_gemfile_token_is_eol, gemfile_parser_process_code_block,
        gemfile_parser_process_statement, gemfile_parser_process_gem,
        gemfile_parser_gem_args, gemfile_parser_gem_args_next,
        bundler_gem_add_dependency, bundler_gem_apply_context,
        bundler_gem_get_strings, bundler_gem_get_ivar,
        bundler_context_match_platform, string_array_contains,
        bundler_gemfile.empty, h1, h2]
      | false =>
        simp [gemfile_parser_process_group, gemfile_parser_group_names,
        gemfile_parser_expect_symbol, gemfile_parser_next_token,
        gemfile_parser_next_token_aux, gemfile_parser_expect_eol,
        __bundler_gemfile_token_is_eol, gemfile_parser_process_code_block,
        gemfile_parser_process_statement, gemfile_parser_process_gem,
        gemfile_parser_gem_args, gemfile_parser_gem_args_next,
        bundler_gem_add_dependency, bundler_gem_apply_context,
        bundler_gem_get_strings, bundler_gem_get_ivar,
        bundler_context_match_platform, string_array_contains,
        bundler_gemfile.empty, h1, h2]
    | false =>
      cases h2 : bundler_context_match_group ctx ["default"] with
      | true =>
        simp [gemfile_parser_process_group, gemfile_parser_group_names,
        gemfile_parser_expect_symbol, gemfile_parser_next_token,
        gemfile_parser_next_token_aux, gemfile_parser_expect_eol,
        __bundler_gemfile_token_is_eol, gemfile_parser_process_code_block,
        gemfile_parser_process_statement, gemfile_parser_process_gem,
        gemfile_parser_gem_args, gemfile_parser_gem_args_next,
        bundler_gem_add_dependency, bundler_gem_apply_context,
        bundler_gem_get_strings, bundler_gem_get_ivar,
        bundler_context_match_platform, string_array_contains,
        bundler_gemfile.empty, h1, h2]
      | false =>
        simp [gemfile_parser_process_group, gemfile_parser_group_names,
        gemfile_parser_expect_symbol, gemfile_parser_next_token,
        gemfile_parser_next_token_aux, gemfile_parser_expect_eol,
        __bundler_gemfile_token_is_eol, gemfile_parser_process_code_block,
        gemfile_parser_process_statement, gemfile_parser_process_gem,
        gemfile_parser_gem_args, gemfile_parser_gem_args_next,
        bundler_gem_add_dependency, bundler_gem_apply_context,
        bundler_gem_get_strings, bundler_gem_get_ivar,
        bundler_context_match_platform, string_array_contains,
        bundler_gemfile.empty, h1, h2]

theorem C4_group_match_rule_amended_witness :
    (bundler_context_match_group
        (bundler_context.mk "2.5.0" ["ruby"] ["default"] []) ["default"] = true ↔
      ((∃ n ∈ ["default"],
          n ∈ (bundler_context.mk "2.5.0" ["ruby"] ["default"] []).with_groups) ∧
       ∀ n ∈ (["default"] : List String),
          n ∉ (bundler_context.mk "2.5.0" ["ruby"] ["default"] []).without_groups)) ∧
    bundler_context_match_group (bundler_context.mk "2.5.0" ["ruby"] ["default"] []) [] =
      bundler_context_match_group
        (bundler_context.mk "2.5.0" ["ruby"] ["default"] []) ["default"] :=
  ⟨C4_group_match_rule_amended.1
     (bundler_context.mk "2.5.0" ["ruby"] ["default"] []) ["default"] (by simp),
   C4_group_match_rule_amended.2.1
     (bundler_context.mk "2.5.0" ["ruby"] ["default"] []) (by simp)⟩

end Minibuild
